import Mathlib

/-!
Verification of the NocoBase import client (`nocobase_client.py`).

This file gives a shallow embedding, in Lean 4, of the pure algorithmic core of
the repository: the endpoint-candidate resolver (`build_fallback_base_urls`),
the resilient request loop (`NocoBaseClient.request`), the Excel column-to-field
mapper (`build_excel_field_mapping`), the cell type coercer
(`_convert_by_field_type` with its helpers), the belongsTo foreign-key resolver
(`resolve_belongs_to_fk`) and the per-row import loop of
`import_excel_to_collection`.

Modelling conventions:
- Python dicts (which preserve insertion order) are modelled as association
  lists `List (key, value)` with first-occurrence lookup; dict assignment is
  `dictSet` (replace in place, else append), dict insert-if-absent is an
  explicit membership test, exactly mirroring the source.
- Python scalar cell values are modelled by `Val` (None, str, int, float as a
  rational, bool).  Float NaN and datetime objects are outside the model;
  `pandas.isna` on the modelled scalars is only true for None.
- Network calls made through the HTTP client are modelled by oracle functions
  (`String → RawResp` for the candidate loop; `ImportEnv` for the import
  pipeline), and exceptions by `Except`.  Each orchestrator-level or
  resolver-level call of `client.create` is additionally recorded in a trace of
  `CreateCall`s so that write effects can be stated.
- `urlparse` is from the Python standard library; its result is modelled by the
  structure `ParsedUrl` whose `netloc` is host plus optional port (userinfo,
  IPv6 brackets and letter-case normalisation of the raw netloc are outside
  the model; `host` plays the role of `parsed.hostname`).
-/

deriving instance DecidableEq for Except

namespace NocoBase

/-! ## Definitions -/

/-- Generic first-occurrence association-list lookup, the model of Python
`dict.get` on a dict represented by its insertion-ordered item list. -/
def alookup {κ α : Type} [BEq κ] (m : List (κ × α)) (k : κ) : Option α :=
  (m.find? (fun p => p.1 == k)).map (fun p => p.2)

/-- Membership test, the model of Python `k in dict`. -/
def amem {κ α : Type} [BEq κ] (m : List (κ × α)) (k : κ) : Bool :=
  (alookup m k).isSome

/-- Model of Python dict assignment `d[k] = v`: replace the value at the first
occurrence of `k` keeping its position, else append a new entry. -/
def dictSet {κ α : Type} [BEq κ] : List (κ × α) → κ → α → List (κ × α)
  | [], k, v => [(k, v)]
  | p :: rest, k, v => if p.1 == k then (k, v) :: rest else p :: dictSet rest k v

/-- Explicit orElse on options (used instead of the library combinator to keep
proof steps elementary). -/
def oelse {α : Type} : Option α → Option α → Option α
  | some x, _ => some x
  | none, b => b

/-- First list element satisfying a boolean predicate (a structural
re-statement of list search used throughout the mapping lemmas). -/
def firstHit {β : Type} (pred : β → Bool) : List β → Option β
  | [] => none
  | x :: rest => if pred x then some x else firstHit pred rest

/-- Python `str.strip()` on a character list: drop whitespace on both ends. -/
def stripChars (l : List Char) : List Char :=
  ((l.dropWhile Char.isWhitespace).reverse.dropWhile Char.isWhitespace).reverse

/-- Python `str.strip()` (whitespace form) on a `String`. -/
def stripStr (s : String) : String := String.mk (stripChars s.data)

/-- Right-strip of `'/'` characters: Python `url.rstrip("/")`. -/
def rstripSlashes (s : String) : String :=
  String.mk (s.data.reverse.dropWhile (fun c => c == '/')).reverse

/-- True when the string's last character is `'/'` (what a trailing slash
means for the candidate-list claims). -/
def endsWithSlash (s : String) : Bool :=
  match s.data.getLast? with
  | some c => c == '/'
  | none => false

/-- Result of the Python function `urlparse` restricted to the shapes this program feeds
it: a scheme, a hostname (already lower-case, no userinfo), an optional port,
and the path/params/query/fragment components.  `netloc` is rendered from
host and port. -/
structure ParsedUrl where
  scheme : String
  host : String
  port : Option Nat
  path : String
  params : String
  query : String
  fragment : String
deriving DecidableEq

/-- The `netloc` component rendered from host and optional port. -/
def netlocStr (p : ParsedUrl) : String :=
  p.host ++ (match p.port with
    | some n => ":" ++ toString n
    | none => "")

/-- Whether a character list begins with two slashes (used by `urlunsplit`). -/
def beginsDoubleSlash (l : List Char) : Bool :=
  match l with
  | c1 :: c2 :: _ => c1 == '/' && c2 == '/'
  | _ => false

/-- Whether a character list begins with one slash. -/
def beginsSlash (l : List Char) : Bool :=
  match l with
  | c :: _ => c == '/'
  | _ => false

/-- the Python function `urllib.parse.urlunparse` on the modelled components, following
the reference implementation (`urlunparse` + `urlunsplit`). -/
def urlunparse (p : ParsedUrl) : String :=
  let url0 := if p.params ≠ "" then p.path ++ ";" ++ p.params else p.path
  let netloc := netlocStr p
  let url1 :=
    if netloc ≠ "" ∨ beginsDoubleSlash url0.data then
      let u := if url0 ≠ "" ∧ ¬ (beginsSlash url0.data = true) then "/" ++ url0 else url0
      "//" ++ netloc ++ u
    else url0
  let url2 := if p.scheme ≠ "" then p.scheme ++ ":" ++ url1 else url1
  let url3 := if p.query ≠ "" then url2 ++ "?" ++ p.query else url2
  if p.fragment ≠ "" then url3 ++ "#" ++ p.fragment else url3

/-- The `add` closure of `build_fallback_base_urls`: normalise the trailing
slashes away and append if non-empty and not yet present. -/
def addCandidate (acc : List String) (url : String) : List String :=
  let normalized := rstripSlashes url
  if normalized ≠ "" ∧ ¬ (acc.contains normalized = true) then acc ++ [normalized] else acc

/-- The opposite scheme chosen by the source (`"https" if scheme == "http"
else "http"`). -/
def swapScheme (scheme : String) : String :=
  if scheme = "http" then "https" else "http"

/-- Shallow embedding of `build_fallback_base_urls`.  `base_url` is the raw
input string, `parsed` the result of `urlparse(base_url)`.  Replacing the
netloc by the bare hostname is modelled by clearing the port. -/
def build_fallback_base_urls (base_url : String) (parsed : ParsedUrl) : List String :=
  let c0 := addCandidate [] base_url
  if (parsed.scheme = "http" ∨ parsed.scheme = "https") ∧ netlocStr parsed ≠ "" then
    let c1 := if parsed.host ≠ "" then addCandidate c0 (urlunparse { parsed with port := none }) else c0
    let c2 := addCandidate c1 (urlunparse { parsed with scheme := swapScheme parsed.scheme })
    if parsed.host ≠ "" then
      addCandidate c2 (urlunparse { parsed with scheme := swapScheme parsed.scheme, port := none })
    else c2
  else c0

/-- Specification-side list transformer for claim C3: keep the non-empty
entries, de-duplicated, first occurrence first.  It is the fold of the same
step the source function through its `add` closure performs on already-normalised strings. -/
def dedupNonEmpty (xs : List String) : List String :=
  xs.foldl (fun acc x => if x ≠ "" ∧ ¬ (acc.contains x = true) then acc ++ [x] else acc) []

/-- The four candidate URLs of the resolver in declared priority order, each
already trailing-slash normalised (specification side of claim C3). -/
def fallbackCandidateList (base_url : String) (parsed : ParsedUrl) : List String :=
  [rstripSlashes base_url,
   rstripSlashes (urlunparse { parsed with port := none }),
   rstripSlashes (urlunparse { parsed with scheme := swapScheme parsed.scheme }),
   rstripSlashes (urlunparse { parsed with scheme := swapScheme parsed.scheme, port := none })]

/-- What the network answers for one candidate base URL: an HTTP response with
a status code and body, or a transport-level failure. -/
inductive RawResp where
  | resp (status : Nat) (body : String)
  | netfail (msg : String)
deriving DecidableEq

/-- Exceptions of the request layer: `requests.HTTPError` carrying the status
and the url, any other transport exception, or the final `RuntimeError`. -/
inductive ReqExc where
  | http (status : Nat) (url : String)
  | net (msg : String) (url : String)
  | runtime (msg : String)
deriving DecidableEq

/-- Shallow embedding of `NocoBaseClient._request_once`: a 2xx/3xx response
(`resp.ok`, i.e. status < 400) returns the parsed body, any other status
raises `requests.HTTPError`, a transport failure raises its exception. -/
def request_once (env : String → RawResp) (u : String) : Except ReqExc String :=
  match env u with
  | RawResp.resp s b => if s < 400 then Except.ok b else Except.error (ReqExc.http s u)
  | RawResp.netfail m => Except.error (ReqExc.net m u)

/-- The candidate loop of `NocoBaseClient.request`, threading the first
recorded HTTP error, the last recorded error, and the list of candidates
contacted so far.  Returns the full contact trace next to the outcome. -/
def requestGo (env : String → RawResp) :
    List String → Option ReqExc → Option ReqExc → List String →
    List String × Except ReqExc String
  | [], firstHttp, lastExc, tried =>
      (tried, Except.error ((oelse firstHttp lastExc).getD (ReqExc.runtime "request failed")))
  | u :: rest, firstHttp, lastExc, tried =>
      match env u with
      | RawResp.resp s b =>
          if s < 400 then (tried ++ [u], Except.ok b)
          else
            let e := ReqExc.http s u
            let fh := some (firstHttp.getD e)
            if s < 500 ∧ s ≠ 404 ∧ s ≠ 405 then (tried ++ [u], Except.error e)
            else requestGo env rest fh (some e) (tried ++ [u])
      | RawResp.netfail m =>
          requestGo env rest firstHttp (some (ReqExc.net m u)) (tried ++ [u])

/-- Shallow embedding of `NocoBaseClient.request`: iterate the candidate base
URLs with the fallback policy of the source.  The first component is the trace
of candidates actually contacted, the second the returned body or raised
exception. -/
def request (env : String → RawResp) (base_urls : List String) :
    List String × Except ReqExc String :=
  requestGo env base_urls none none []

/-- A candidate outcome the loop records and skips past: an HTTP status that
is ≥ 500 or in {404, 405}, or a transport failure. -/
def isContinueKind (env : String → RawResp) (u : String) : Bool :=
  match env u with
  | RawResp.resp s _ => 400 ≤ s ∧ (500 ≤ s ∨ s = 404 ∨ s = 405)
  | RawResp.netfail _ => true

/-- A candidate outcome on which the loop raises immediately: a definite 4xx
other than 404/405. -/
def isAuthFailure (env : String → RawResp) (u : String) : Bool :=
  match env u with
  | RawResp.resp s _ => 400 ≤ s ∧ s < 500 ∧ s ≠ 404 ∧ s ≠ 405
  | RawResp.netfail _ => false

/-- A candidate outcome that is an HTTP error (status ≥ 400), of any status. -/
def isHttpFailure (env : String → RawResp) (u : String) : Bool :=
  match env u with
  | RawResp.resp s _ => 400 ≤ s
  | RawResp.netfail _ => false

/-- The exception `request_once` would raise at a failing candidate. -/
def excOf (env : String → RawResp) (u : String) : ReqExc :=
  match env u with
  | RawResp.resp s _ => ReqExc.http s u
  | RawResp.netfail m => ReqExc.net m u

/-- The fold step shared by `addCandidate` (after normalisation) and
`dedupNonEmpty`. -/
def dedupStep (acc : List String) (x : String) : List String :=
  if x ≠ "" ∧ ¬ (acc.contains x = true) then acc ++ [x] else acc

/-- Concrete run of the environment underlying the C2 witness: candidate "a"
answers 502 (continue), "b" answers 400 (authoritative), "c" would succeed. -/
def envC2 : String → RawResp := fun u =>
  if u = "a" then RawResp.resp 502 "bad gateway"
  else if u = "b" then RawResp.resp 400 "bad request"
  else RawResp.resp 200 "ok"

/-- Concrete environment for the C4 counterexample and witness: candidate "A"
answers 502 (an HTTP error that is not an authoritative rejection), candidate
"B" fails at transport level. -/
def envC4 : String → RawResp := fun u =>
  if u = "A" then RawResp.resp 502 "oops" else RawResp.netfail "timeout"

/-- Concrete parsed URL for the C3 witness: `http://example.com:13001/api`. -/
def parsedC3 : ParsedUrl :=
  { scheme := "http", host := "example.com", port := some 13001,
    path := "/api", params := "", query := "", fragment := "" }

/-- Model of the Python scalar cell values this pipeline handles: `None`,
`str`, `int`, `float` (as a rational; NaN/inf are outside the model) and
`bool`. -/
inductive Val where
  | vnone
  | vstr (s : String)
  | vint (n : Int)
  | vfloat (q : Rat)
  | vbool (b : Bool)
deriving DecidableEq

/-- Python `str(v)` on the modelled scalars.  The rendering of a non-integral
float abbreviates the Python decimal formatting; no claim depends on it. -/
def pyStr (v : Val) : String :=
  match v with
  | Val.vnone => "None"
  | Val.vstr s => s
  | Val.vint n => toString n
  | Val.vfloat q => if q.den = 1 then toString q.num ++ ".0" else toString q.num ++ "/" ++ toString q.den
  | Val.vbool b => if b then "True" else "False"

/-- Python truthiness of the modelled scalars. -/
def pyTruthy (v : Val) : Bool :=
  match v with
  | Val.vnone => false
  | Val.vstr s => s ≠ ""
  | Val.vint n => n ≠ 0
  | Val.vfloat q => q ≠ 0
  | Val.vbool b => b

/-- Shallow embedding of `_is_empty_cell`: `None`, NaN (outside the model) and
whitespace-only strings are empty. -/
def _is_empty_cell (v : Val) : Bool :=
  match v with
  | Val.vnone => true
  | Val.vstr s => stripStr s == ""
  | _ => false

/-- Shallow embedding of `_to_python_scalar`: empty cells become `None`; the
numpy `.item()` unwrap is the identity on the modelled scalars. -/
def _to_python_scalar (v : Val) : Val :=
  if _is_empty_cell v then Val.vnone else v

/-- Digit-string value (used for `int(v.strip())` on an `isdigit` string). -/
def digitsToNat (l : List Char) : Nat :=
  l.foldl (fun n c => n * 10 + (c.toNat - '0'.toNat)) 0

/-- Truncation toward zero, Python `int(float)`. -/
def ratTrunc (q : Rat) : Int :=
  q.num.tdiv (q.den : Int)

/-- Model of Python `float(s)` on plain decimal strings (optional sign, digits
with an optional fractional part, surrounding whitespace).  Exponents and
inf/nan spellings are outside the model; no claim depends on them. -/
def parsePyFloat (s : String) : Option Rat :=
  let t := stripChars s.data
  let core := fun (l : List Char) =>
    let ip := l.takeWhile (fun c => c ≠ '.')
    let rest := l.dropWhile (fun c => c ≠ '.')
    match rest with
    | [] =>
      if ip ≠ [] ∧ ip.all Char.isDigit then some ((digitsToNat ip : Int) : Rat) else none
    | _ :: fp =>
      if (ip ≠ [] ∨ fp ≠ []) ∧ ip.all Char.isDigit ∧ fp.all Char.isDigit then
        some (((digitsToNat ip * 10 ^ fp.length + digitsToNat fp : Nat) : Rat) / ((10 ^ fp.length : Nat) : Rat))
      else none
  match t with
  | '+' :: r => core r
  | '-' :: r => (core r).map (fun q => -q)
  | r => core r

/-- Python `float(v)` on the modelled scalars (`None` raises). -/
def pyFloat (v : Val) : Option Rat :=
  match v with
  | Val.vnone => none
  | Val.vstr s => parsePyFloat s
  | Val.vint n => some (n : Rat)
  | Val.vfloat q => some q
  | Val.vbool b => some (if b then 1 else 0)

/-- The float-family conversion of `_convert_by_field_type`: `float(v)`, and
the value unchanged if that raises. -/
def floatConvert (v : Val) : Val :=
  match pyFloat v with
  | some q => Val.vfloat q
  | none => v

/-- The integer-family conversion of `_convert_by_field_type`: a whole-valued
float becomes its integer, a digit-only string its value, otherwise
`int(float(v))`; the value is unchanged if the conversion raises. -/
def intConvert (v : Val) : Val :=
  match v with
  | Val.vfloat q => if q.den = 1 then Val.vint q.num else Val.vint (ratTrunc q)
  | Val.vstr s =>
    let t := stripChars s.data
    if t ≠ [] ∧ t.all Char.isDigit then Val.vint (digitsToNat t : Int)
    else
      match parsePyFloat s with
      | some q => Val.vint (ratTrunc q)
      | none => v
  | Val.vint n => Val.vint n
  | Val.vbool b => Val.vint (if b then 1 else 0)
  | Val.vnone => v

/-- One field definition as fetched from the remote schema.  Each component is
`none` when the corresponding dict key is absent or not a string; `uiTitle`
is `uiSchema.title`. -/
structure FieldDef where
  ftype : Option String
  title : Option String
  label : Option String
  uiTitle : Option String
  target : Option String
  foreignKey : Option String
deriving DecidableEq

/-- A field definition with every component absent (for building examples). -/
def emptyField : FieldDef :=
  { ftype := none, title := none, label := none, uiTitle := none,
    target := none, foreignKey := none }

/-- Shallow embedding of `_convert_by_field_type`: empty input or a missing
field definition pass through (`None` stays `None`); date-like types render to
a string; float and integer families convert as the source does; all other
types pass through unchanged. -/
def _convert_by_field_type (value : Val) (field_def : Option FieldDef) : Val :=
  let v := _to_python_scalar value
  if v = Val.vnone then v
  else
    match field_def with
    | none => v
    | some fd =>
      match fd.ftype with
      | none => v
      | some t =>
        if t = "date" ∨ t = "datetime" ∨ t = "datetimeNoTz" then Val.vstr (pyStr v)
        else if t = "double" ∨ t = "float" ∨ t = "decimal" then floatConvert v
        else if t = "integer" ∨ t = "bigInt" ∨ t = "sort" ∨ t = "snowflakeId" then intConvert v
        else v

/-- The list of field-definition entries of one collection, in schema field
order (the model of the dict `_extract_fields_from_collection_get` builds). -/
abbrev FieldsT := List (String × FieldDef)

/-- Column-name-keyed string mapping (the model of the `mapping` and
`reasons` dicts). -/
abbrev MapT := List (String × String)

/-- Shallow embedding of `_field_titles`: the stripped non-empty values of
`title`, `label` and `uiSchema.title`, in that order, de-duplicated keeping
first occurrences. -/
def _field_titles (fd : FieldDef) : List String :=
  let push := fun (acc : List String) (o : Option String) =>
    match o with
    | some v => if stripStr v ≠ "" then acc ++ [stripStr v] else acc
    | none => acc
  let ts := push (push (push [] fd.title) fd.label) fd.uiTitle
  ts.foldl (fun acc t => if acc.contains t then acc else acc ++ [t]) []

/-- Shallow embedding of the `allowed_field` closure: with no exclusions every
field is allowed; otherwise the declared type of the field (if any, found by name
in the schema) must not be excluded. -/
def allowed_field (collection_fields : FieldsT) (excluded : List String)
    (field_name : String) : Bool :=
  if excluded.isEmpty then true
  else
    match (alookup collection_fields field_name).bind (fun fd => fd.ftype) with
    | none => true
    | some t => ! excluded.contains t

/-- Phase 1 of `build_excel_field_mapping`: explicit operator overrides,
accepted when the named field exists in the schema. -/
def mappingPhase1 (collection_fields : FieldsT) :
    List (String × String) → MapT × MapT → MapT × MapT
  | [], st => st
  | (excel_col, field_name) :: rest, (m, r) =>
    if amem m excel_col then mappingPhase1 collection_fields rest (m, r)
    else if amem collection_fields field_name then
      mappingPhase1 collection_fields rest
        (m ++ [(excel_col, field_name)], r ++ [(excel_col, "explicit")])
    else mappingPhase1 collection_fields rest (m, r)

/-- Phase 2: a column equal to a field identifier maps to it when that field
is not excluded. -/
def mappingPhase2 (collection_fields : FieldsT) (excluded : List String) :
    List String → MapT × MapT → MapT × MapT
  | [], st => st
  | col :: rest, (m, r) =>
    if amem m col then mappingPhase2 collection_fields excluded rest (m, r)
    else if amem collection_fields col ∧ allowed_field collection_fields excluded col then
      mappingPhase2 collection_fields excluded rest
        (m ++ [(col, col)], r ++ [(col, "match_field_name")])
    else mappingPhase2 collection_fields excluded rest (m, r)

/-- Insert every title of one field into the title dictionary, keeping
earlier bindings. -/
def insertTitleList (name : String) : List String → MapT → MapT
  | [], t2n => t2n
  | t :: ts, t2n =>
    if amem t2n t then insertTitleList name ts t2n
    else insertTitleList name ts (t2n ++ [(t, name)])

/-- The `title_to_name` dictionary: iterate the schema fields in order,
skipping excluded ones, binding each title to the first field carrying it. -/
def buildTitleToName (collection_fields : FieldsT) (excluded : List String) :
    FieldsT → MapT → MapT
  | [], t2n => t2n
  | (name, fdef) :: rest, t2n =>
    if allowed_field collection_fields excluded name then
      buildTitleToName collection_fields excluded rest
        (insertTitleList name (_field_titles fdef) t2n)
    else buildTitleToName collection_fields excluded rest t2n

/-- Phase 3: a still-unmapped column equal to a known title maps to the field of that
title (the `if target:` test also drops an empty-string name). -/
def mappingPhase3 (t2n : MapT) : List String → MapT × MapT → MapT × MapT
  | [], st => st
  | col :: rest, (m, r) =>
    if amem m col then mappingPhase3 t2n rest (m, r)
    else
      match alookup t2n col with
      | some target =>
        if target ≠ "" then
          mappingPhase3 t2n rest (m ++ [(col, target)], r ++ [(col, "match_field_title")])
        else mappingPhase3 t2n rest (m, r)
      | none => mappingPhase3 t2n rest (m, r)

/-- Shallow embedding of `build_excel_field_mapping`: explicit overrides, then
identifier matches, then title matches.  Returns the mapping and the reasons
dicts. -/
def build_excel_field_mapping (excel_columns : List String)
    (collection_fields : FieldsT)
    (explicit_mapping : Option (List (String × String)))
    (exclude_field_types : Option (List String)) : MapT × MapT :=
  let excluded := exclude_field_types.getD []
  let st1 := mappingPhase1 collection_fields (explicit_mapping.getD []) ([], [])
  let st2 := mappingPhase2 collection_fields excluded excel_columns st1
  let t2n := buildTitleToName collection_fields excluded collection_fields []
  mappingPhase3 t2n excel_columns st2

/-- Specification-side resolution of one column, written from the words of the
spec (claim C6): first a successful explicit override, then an identifier
match on a non-excluded field, then a title match choosing the first
non-excluded field in schema order that carries the title. -/
def specResolveColumn (excel_columns : List String)
    (collection_fields : FieldsT)
    (explicit_mapping : Option (List (String × String)))
    (exclude_field_types : Option (List String)) (col : String) :
    Option (String × String) :=
  match firstHit (fun p => p.1 == col && amem collection_fields p.2)
      (explicit_mapping.getD []) with
  | some p => some (p.2, "explicit")
  | none =>
    if col ∈ excel_columns ∧ amem collection_fields col = true
        ∧ allowed_field collection_fields (exclude_field_types.getD []) col = true then
      some (col, "match_field_name")
    else if col ∈ excel_columns then
      match firstHit (fun q => allowed_field collection_fields (exclude_field_types.getD []) q.1
            && (_field_titles q.2).contains col) collection_fields with
      | some q => if q.1 ≠ "" then some (q.1, "match_field_title") else none
      | none => none
    else none

/-- Python exceptions that cross the import pipeline: `RuntimeError`-style
errors with a message, and `requests.HTTPError`s carrying a status. -/
inductive PyErr where
  | runtime (msg : String)
  | http (status : Nat) (msg : String)
deriving DecidableEq

/-- Python `str(exc)`. -/
def pyErrStr (e : PyErr) : String :=
  match e with
  | PyErr.runtime m => m
  | PyErr.http _ m => m

/-- One row of a table, as a dict from attribute name to value. -/
abbrev Row := List (String × Val)

/-- The per-run foreign-key resolution cache:
`(target, title_field, label) ↦ resolved pk`. -/
abbrev Cache := List ((String × String × String) × Val)

/-- Tag telling which code site issued a `client.create` call: the
row write of the orchestrator, or the create-missing-target write of the resolver. -/
inductive CallTag where
  | rowCreate
  | fkCreate
deriving DecidableEq

/-- A recorded `client.create` call: site, collection, payload. -/
abbrev CreateCall := CallTag × String × Row

/-- The JSON envelope of a `client.create` response: the `errors` attribute
(`vnone` when absent) and the `data` record when present. -/
structure CreateResp where
  errors : Val
  data : Option Row
deriving DecidableEq

/-- The remote store as seen by one import run.  `collectionsFields` models
`collections_get` plus `_extract_fields_from_collection_get`;
`titleFieldAttr` models the `titleField` attribute of
`collections_get(name=target).data` (`vnone` when absent); `listRows` models
the `data` list of `client.list(target, page 1, pageSize 2000)`; `create`
models one `client.create` call.  Each call can raise. -/
structure ImportEnv where
  collectionsFields : String → Except PyErr FieldsT
  titleFieldAttr : String → Except PyErr Val
  listRows : String → Except PyErr (List Row)
  create : String → Row → Except PyErr CreateResp

/-- The effective title field of a belongsTo target: the declared `titleField`
when it is a non-empty string, else `"name"`. -/
def effTitleField (tfv : Val) : String :=
  match tfv with
  | Val.vstr s => if s ≠ "" then s else "name"
  | _ => "name"

/-- Shallow embedding of the `resolve_belongs_to_fk` closure.  Returns the
resolved pk (`vnone` models Python `None`) together with the updated cache,
and separately the trace of `client.create` calls it issued. -/
def resolve_belongs_to_fk (env : ImportEnv) (create_missing : Bool) (cache : Cache)
    (field_def : FieldDef) (display_value : Val) :
    Except PyErr (Val × Cache) × List CreateCall :=
  match field_def.target with
  | none => (Except.error (PyErr.runtime "belongsTo 缺少 target"), [])
  | some target =>
    if target = "" then (Except.error (PyErr.runtime "belongsTo 缺少 target"), [])
    else
      match field_def.foreignKey with
      | none => (Except.error (PyErr.runtime "belongsTo 缺少 foreignKey"), [])
      | some fk =>
        if fk = "" then (Except.error (PyErr.runtime "belongsTo 缺少 foreignKey"), [])
        else
          let label := stripStr (pyStr display_value)
          if label = "" then (Except.ok (Val.vnone, cache), [])
          else
            match env.titleFieldAttr target with
            | Except.error e => (Except.error e, [])
            | Except.ok tfv =>
              let title_field := effTitleField tfv
              match alookup cache (target, title_field, label) with
              | some pk => (Except.ok (pk, cache), [])
              | none =>
                match env.listRows target with
                | Except.error e => (Except.error e, [])
                | Except.ok rows =>
                  match rows.find? (fun r =>
                      stripStr (pyStr ((alookup r title_field).getD (Val.vstr ""))) == label) with
                  | some r =>
                    let pk := (alookup r "id").getD Val.vnone
                    (Except.ok (pk, cache ++ [((target, title_field, label), pk)]), [])
                  | none =>
                    if create_missing then
                      match env.create target [(title_field, Val.vstr label)] with
                      | Except.error e =>
                        (Except.error e, [(CallTag.fkCreate, target, [(title_field, Val.vstr label)])])
                      | Except.ok created =>
                        let pk := match created.data with
                          | some d => (alookup d "id").getD Val.vnone
                          | none => Val.vnone
                        (Except.ok (pk, cache ++ [((target, title_field, label), pk)]),
                         [(CallTag.fkCreate, target, [(title_field, Val.vstr label)])])
                    else
                      (Except.error (PyErr.runtime
                        ("belongsTo 未找到目标记录：" ++ target ++ "." ++ title_field
                          ++ " == " ++ label)), [])

/-- Shallow embedding of the inner loop of `import_excel_to_collection` that
builds the Write Values of one row: walk the mapping entries in order, resolve
belongsTo columns through `resolve_belongs_to_fk` (a failure there raises,
wrapped in the `belongsTo 字段解析失败` RuntimeError), coerce other columns and
drop null values.  Returns the values dict and the updated cache, plus the
trace of create calls. -/
def buildRowValues (env : ImportEnv) (resolve_bt create_missing : Bool)
    (fields : FieldsT) (row : Row) :
    List (String × String) → Row → Cache →
    Except PyErr (Row × Cache) × List CreateCall
  | [], values, cache => (Except.ok (values, cache), [])
  | (excel_col, field_name) :: rest, values, cache =>
    let field_def := alookup fields field_name
    let raw := (alookup row excel_col).getD Val.vnone
    match hfd : field_def with
    | some fd =>
      if resolve_bt ∧ fd.ftype = some "belongsTo" then
        let v0 := _to_python_scalar raw
        if v0 = Val.vnone then
          buildRowValues env resolve_bt create_missing fields row rest values cache
        else
          match resolve_belongs_to_fk env create_missing cache fd v0 with
          | (Except.error exc, tr1) =>
            (Except.error (PyErr.runtime ("belongsTo 字段解析失败：" ++ field_name
              ++ "(" ++ excel_col ++ ")：" ++ pyErrStr exc)), tr1)
          | (Except.ok (fk_value, cache2), tr1) =>
            match fd.foreignKey with
            | some fk_name =>
              if fk_value = Val.vnone ∨ fk_name = "" then
                let res := buildRowValues env resolve_bt create_missing fields row rest values cache2
                (res.1, tr1 ++ res.2)
              else
                let res := buildRowValues env resolve_bt create_missing fields row rest
                  (dictSet values fk_name fk_value) cache2
                (res.1, tr1 ++ res.2)
            | none =>
              let res := buildRowValues env resolve_bt create_missing fields row rest values cache2
              (res.1, tr1 ++ res.2)
      else
        let v := _convert_by_field_type raw field_def
        if v = Val.vnone then
          buildRowValues env resolve_bt create_missing fields row rest values cache
        else
          buildRowValues env resolve_bt create_missing fields row rest
            (dictSet values field_name v) cache
    | none =>
      let v := _convert_by_field_type raw field_def
      if v = Val.vnone then
        buildRowValues env resolve_bt create_missing fields row rest values cache
      else
        buildRowValues env resolve_bt create_missing fields row rest
          (dictSet values field_name v) cache

/-- One recorded row failure of the import loop. -/
structure RowError where
  row : Nat
  error : String
  statusCode : Option Nat
  values : Row
deriving DecidableEq

/-- The aggregate statistics returned by `import_excel_to_collection`
(the fields of the returned dict that the claims speak about). -/
structure ImportResult where
  rows : Nat
  cols : Nat
  mapping : MapT
  reasons : MapT
  unmapped : List String
  total : Nat
  success : Nat
  failed : Nat
  errors : List RowError
  preview : Option (List Row)
deriving DecidableEq

/-- A deterministic stand-in for the Python repr of the create response inside
the `create 返回异常` message; no claim depends on its exact shape. -/
def respRepr (resp : CreateResp) : String :=
  pyStr resp.errors ++ "/" ++ (match resp.data with
    | some d => toString d.length
    | none => "None")

/-- The row error recorded when `client.create` raises: message, the HTTP
status when the exception carries a response, and the attempted values. -/
def mkRowError (i : Nat) (exc : PyErr) (values : Row) : RowError :=
  { row := i + 1, error := pyErrStr exc,
    statusCode := match exc with
      | PyErr.http s _ => some s
      | PyErr.runtime _ => none,
    values := values }

/-- Shallow embedding of the per-row loop of `import_excel_to_collection`:
build the Write Values, skip empty rows, record previews in dry-run mode,
otherwise write and classify the response; a failure raised while building the
values (belongsTo resolution) propagates and aborts the loop. -/
def importLoop (env : ImportEnv) (collection : String)
    (resolve_bt create_missing dry_run : Bool)
    (fields : FieldsT) (mapping : MapT) :
    List Row → Nat → Nat → Nat → List RowError → List Row → Cache →
    Except PyErr (Nat × Nat × List RowError × List Row × Cache) × List CreateCall
  | [], _, success, failed, errors, preview, cache =>
    (Except.ok (success, failed, errors, preview, cache), [])
  | row :: rest, i, success, failed, errors, preview, cache =>
    match buildRowValues env resolve_bt create_missing fields row mapping [] cache with
    | (Except.error e, tr) => (Except.error e, tr)
    | (Except.ok (values, cache2), tr) =>
      if values.isEmpty then
        let res := importLoop env collection resolve_bt create_missing dry_run fields mapping
          rest (i + 1) success failed errors preview cache2
        (res.1, tr ++ res.2)
      else if dry_run then
        let res := importLoop env collection resolve_bt create_missing dry_run fields mapping
          rest (i + 1) (success + 1) failed errors (preview ++ [values]) cache2
        (res.1, tr ++ res.2)
      else
        match env.create collection values with
        | Except.error exc =>
          let res := importLoop env collection resolve_bt create_missing dry_run fields mapping
            rest (i + 1) success (failed + 1) (errors ++ [mkRowError i exc values]) preview cache2
          (res.1, tr ++ [(CallTag.rowCreate, collection, values)] ++ res.2)
        | Except.ok resp =>
          if pyTruthy resp.errors then
            let res := importLoop env collection resolve_bt create_missing dry_run fields mapping
              rest (i + 1) success (failed + 1)
              (errors ++ [{ row := i + 1, error := pyStr resp.errors,
                            statusCode := none, values := values }]) preview cache2
            (res.1, tr ++ [(CallTag.rowCreate, collection, values)] ++ res.2)
          else
            match resp.data with
            | some d =>
              if pyTruthy ((alookup d "id").getD Val.vnone) then
                let res := importLoop env collection resolve_bt create_missing dry_run fields mapping
                  rest (i + 1) (success + 1) failed errors preview cache2
                (res.1, tr ++ [(CallTag.rowCreate, collection, values)] ++ res.2)
              else
                let res := importLoop env collection resolve_bt create_missing dry_run fields mapping
                  rest (i + 1) success (failed + 1)
                  (errors ++ [{ row := i + 1, error := "create 返回异常：" ++ respRepr resp,
                                statusCode := none, values := values }]) preview cache2
                (res.1, tr ++ [(CallTag.rowCreate, collection, values)] ++ res.2)
            | none =>
              let res := importLoop env collection resolve_bt create_missing dry_run fields mapping
                rest (i + 1) success (failed + 1)
                (errors ++ [{ row := i + 1, error := "create 返回异常：" ++ respRepr resp,
                              statusCode := none, values := values }]) preview cache2
              (res.1, tr ++ [(CallTag.rowCreate, collection, values)] ++ res.2)

/-- Shallow embedding of `import_excel_to_collection` from the point where the
spreadsheet has been read: `rows` and `columns` are the cleaned dataframe,
the schema is fetched once, the column mapping is built once (excluding
relation types when belongsTo resolution is disabled), and the rows up to the
limit are processed by `importLoop`.  Returns the Import Result or the raised
exception, next to the trace of `client.create` calls. -/
def import_excel_to_collection (env : ImportEnv) (collection : String)
    (rows : List Row) (columns : List String) (limit : Int) (dry_run : Bool)
    (explicit_mapping : Option (List (String × String)))
    (resolve_belongs_to create_missing_belongs_to : Bool) :
    Except PyErr ImportResult × List CreateCall :=
  if rows.isEmpty then
    (Except.error (PyErr.runtime "Excel 为空或只有空行/空列"), [])
  else
    match env.collectionsFields collection with
    | Except.error e => (Except.error e, [])
    | Except.ok fields =>
      let exclude_types : Option (List String) :=
        if resolve_belongs_to then none
        else some ["belongsTo", "belongsToMany", "hasMany", "hasOne"]
      let mr := build_excel_field_mapping columns fields explicit_mapping exclude_types
      let unmapped := columns.filter (fun c => ! amem mr.1 c)
      let total := if limit ≤ 0 then rows.length else min rows.length limit.toNat
      match importLoop env collection resolve_belongs_to create_missing_belongs_to dry_run
          fields mr.1 (rows.take total) 0 0 0 [] [] [] with
      | (Except.error e, tr) => (Except.error e, tr)
      | (Except.ok (success, failed, errors, preview, _), tr) =>
        (Except.ok { rows := rows.length, cols := columns.length,
                     mapping := mr.1, reasons := mr.2, unmapped := unmapped,
                     total := total, success := success, failed := failed,
                     errors := errors,
                     preview := if dry_run then some preview else none }, tr)

/-- Field definition of a plain string field used by concrete examples. -/
def fdStr : FieldDef :=
  { ftype := some "string", title := none, label := none, uiTitle := none,
    target := none, foreignKey := none }

/-- An environment whose every call fails; sufficient for runs that never
touch the network. -/
def envInert : ImportEnv :=
  { collectionsFields := fun _ => Except.error (PyErr.runtime "unused"),
    titleFieldAttr := fun _ => Except.error (PyErr.runtime "unused"),
    listRows := fun _ => Except.error (PyErr.runtime "unused"),
    create := fun _ _ => Except.error (PyErr.runtime "unused") }

/-- Field definitions exercising each failure mode of the resolver. -/
def fdNoTarget : FieldDef := emptyField

def fdNoFk : FieldDef :=
  { emptyField with target := some "t" }

def fdC8 : FieldDef :=
  { emptyField with target := some "t", foreignKey := some "fk" }

/-- Environment for the C8 witness: the target table declares no title field
and its scanned page is empty. -/
def envC8 : ImportEnv :=
  { collectionsFields := fun _ => Except.error (PyErr.runtime "unused"),
    titleFieldAttr := fun _ => Except.ok Val.vnone,
    listRows := fun _ => Except.ok [],
    create := fun _ _ => Except.error (PyErr.runtime "unused") }

/-- belongsTo field definition used by the concrete import examples. -/
def fdBT : FieldDef :=
  { ftype := some "belongsTo", title := none, label := none, uiTitle := none,
    target := some "t_customers", foreignKey := some "customer_id" }

/-- Environment for the C1 failing input: the target table holds one record
titled "Known"; creating records always succeeds. -/
def envC1 : ImportEnv :=
  { collectionsFields := fun c =>
      if c = "orders" then Except.ok [("customer", fdBT)]
      else Except.error (PyErr.runtime "no such collection"),
    titleFieldAttr := fun _ => Except.ok Val.vnone,
    listRows := fun t =>
      if t = "t_customers" then Except.ok [[("id", Val.vint 1), ("name", Val.vstr "Known")]]
      else Except.error (PyErr.runtime "no such collection"),
    create := fun _ _ => Except.ok { errors := Val.vnone, data := some [("id", Val.vint 9)] } }

/-- The keys the amended claim C5 allows: a schema field name, or the declared
foreign key of a belongsTo field of the schema. -/
def schemaOrFkKey (cf : FieldsT) (k : String) : Prop :=
  amem cf k = true
  ∨ cf.any (fun q => q.2.ftype == some "belongsTo" && q.2.foreignKey == some k) = true

/-- Schema and environment for the C5 counterexample: one belongsTo field
"customer" whose foreign key "customer_id" is not itself a schema field; the
target table resolves "Acme" to pk 5. -/
def cfC5 : FieldsT := [("customer", fdBT)]

def envC5 : ImportEnv :=
  { collectionsFields := fun _ => Except.error (PyErr.runtime "unused"),
    titleFieldAttr := fun _ => Except.ok Val.vnone,
    listRows := fun t =>
      if t = "t_customers" then Except.ok [[("id", Val.vint 5), ("name", Val.vstr "Acme")]]
      else Except.error (PyErr.runtime "no such collection"),
    create := fun _ _ => Except.error (PyErr.runtime "unused") }

/-- Environment and expected outcome of the C10 strict example: two rows, the
second entirely blank, every create succeeding. -/
def envC10 : ImportEnv :=
  { collectionsFields := fun c =>
      if c = "orders" then Except.ok [("name", fdStr)]
      else Except.error (PyErr.runtime "no such collection"),
    titleFieldAttr := fun _ => Except.error (PyErr.runtime "unused"),
    listRows := fun _ => Except.error (PyErr.runtime "unused"),
    create := fun _ _ => Except.ok { errors := Val.vnone, data := some [("id", Val.vint 3)] } }

def rowsC10 : List Row := [[("name", Val.vstr "a")], [("name", Val.vstr " ")]]

def resC10 : ImportResult :=
  { rows := 2, cols := 1, mapping := [("name", "name")],
    reasons := [("name", "match_field_name")], unmapped := [],
    total := 2, success := 1, failed := 0, errors := [], preview := none }

/-- Environment and expected outcome of the C9 counterexample and witness:
one belongsTo row whose label is absent from the target table, dry-run with
create-missing enabled. -/
def envC9 : ImportEnv :=
  { collectionsFields := fun c =>
      if c = "orders" then Except.ok [("customer", fdBT)]
      else Except.error (PyErr.runtime "no such collection"),
    titleFieldAttr := fun _ => Except.ok Val.vnone,
    listRows := fun t =>
      if t = "t_customers" then Except.ok []
      else Except.error (PyErr.runtime "no such collection"),
    create := fun _ _ => Except.ok { errors := Val.vnone, data := some [("id", Val.vint 7)] } }

def rowsC9 : List Row := [[("customer", Val.vstr "Acme")]]

def resC9 : ImportResult :=
  { rows := 1, cols := 1, mapping := [("customer", "customer")],
    reasons := [("customer", "match_field_name")], unmapped := [],
    total := 1, success := 1, failed := 0, errors := [],
    preview := some [[("customer_id", Val.vint 7)]] }

def trC9 : List CreateCall :=
  [(CallTag.fkCreate, "t_customers", [("name", Val.vstr "Acme")])]

/-! ## Theorems -/

@[simp] theorem oelse_some {α : Type} (x : α) (b : Option α) : oelse (some x) b = some x := rfl

@[simp] theorem oelse_none {α : Type} (b : Option α) : oelse none b = b := rfl

@[simp] theorem firstHit_nil {β : Type} (pred : β → Bool) : firstHit pred [] = none := rfl

theorem firstHit_cons {β : Type} (pred : β → Bool) (x : β) (rest : List β) :
    firstHit pred (x :: rest) = if pred x then some x else firstHit pred rest := rfl

theorem firstHit_some {β : Type} (pred : β → Bool) :
    ∀ (l : List β) (x : β), firstHit pred l = some x → pred x = true ∧ x ∈ l := by
  intro l
  induction l with
  | nil => intro x h; simp [firstHit] at h
  | cons a rest ih =>
    intro x h
    rw [firstHit_cons] at h
    by_cases hp : pred a = true
    · rw [if_pos hp] at h
      obtain rfl : a = x := by simpa using h
      exact ⟨hp, by simp⟩
    · rw [if_neg hp] at h
      obtain ⟨h1, h2⟩ := ih x h
      exact ⟨h1, by simp [h2]⟩

theorem oelse_some_right {α : Type} (a : Option α) (e : α) : oelse a (some e) = some (a.getD e) := by
  cases a <;> rfl

theorem oelse_none_right {α : Type} (a : Option α) : oelse a none = a := by
  cases a <;> rfl

/-- If the loop reaches a candidate whose answer is an authoritative 4xx after
skipping only continue-class candidates, it raises that error at once; the
accumulated first/last errors play no role in the raised exception. -/
theorem requestGo_auth (env : String → RawResp) :
    ∀ (i : Nat) (urls : List String) (u : String),
      urls.get? i = some u →
      (urls.take i).all (isContinueKind env) = true →
      isAuthFailure env u = true →
      ∀ fh le tr, requestGo env urls fh le tr =
        (tr ++ urls.take (i + 1), Except.error (excOf env u)) := by
  intro i
  induction i with
  | zero =>
    intro urls u hget hskip hauth fh le tr
    cases urls with
    | nil => simp at hget
    | cons v rest =>
      have hvu : v = u := by simpa using hget
      subst hvu
      unfold isAuthFailure at hauth
      unfold excOf
      cases henv : env v with
      | resp s b =>
        rw [henv] at hauth
        simp only [decide_eq_true_eq] at hauth
        obtain ⟨h1, h2, h3, h4⟩ := hauth
        have hlt : ¬ (s < 400) := by omega
        simp [requestGo, henv, hlt, h2, h3, h4]
      | netfail m =>
        rw [henv] at hauth
        simp at hauth
  | succ j ih =>
    intro urls u hget hskip hauth fh le tr
    cases urls with
    | nil => simp at hget
    | cons v rest =>
      simp only [List.get?_cons_succ] at hget
      rw [List.take_succ_cons, List.all_cons, Bool.and_eq_true] at hskip
      obtain ⟨hv, hrest⟩ := hskip
      unfold isContinueKind at hv
      cases henv : env v with
      | resp s b =>
        rw [henv] at hv
        simp only [decide_eq_true_eq] at hv
        obtain ⟨h1, h2⟩ := hv
        have hlt : ¬ (s < 400) := by omega
        have hnauth : ¬ (s < 500 ∧ s ≠ 404 ∧ s ≠ 405) := by omega
        simp only [requestGo, henv, hlt, if_false, hnauth]
        rw [ih rest u hget hrest hauth]
        simp [List.take_succ_cons]
      | netfail m =>
        simp only [requestGo, henv]
        rw [ih rest u hget hrest hauth]
        simp [List.take_succ_cons]

/-- If every candidate fails with a continue-class outcome, the loop contacts
all of them and raises the first recorded HTTP error, else the last recorded
error, else the generic failure. -/
theorem requestGo_exhaust (env : String → RawResp) :
    ∀ (urls : List String) (fh le : Option ReqExc) (tr : List String),
      urls.all (isContinueKind env) = true →
      requestGo env urls fh le tr =
        (tr ++ urls, Except.error
          ((oelse (oelse fh ((urls.find? (isHttpFailure env)).map (excOf env)))
                  (oelse ((urls.getLast?).map (excOf env)) le)).getD
            (ReqExc.runtime "request failed"))) := by
  intro urls
  induction urls with
  | nil =>
    intro fh le tr _
    simp [requestGo, oelse_none_right]
  | cons v rest ih =>
    intro fh le tr hall
    rw [List.all_cons, Bool.and_eq_true] at hall
    obtain ⟨hv, hrest⟩ := hall
    unfold isContinueKind at hv
    cases henv : env v with
    | resp s b =>
      rw [henv] at hv
      simp only [decide_eq_true_eq] at hv
      obtain ⟨h1, h2⟩ := hv
      have hlt : ¬ (s < 400) := by omega
      have hnauth : ¬ (s < 500 ∧ s ≠ 404 ∧ s ≠ 405) := by omega
      have hhttp : isHttpFailure env v = true := by
        simp [isHttpFailure, henv]; omega
      have hexc : excOf env v = ReqExc.http s v := by simp [excOf, henv]
      simp only [requestGo, henv, hlt, if_false, hnauth]
      rw [ih _ _ _ hrest]
      rw [List.find?_cons_of_pos _ hhttp]
      simp only [Prod.mk.injEq, Option.map_some, hexc]
      refine ⟨by simp, ?_⟩
      cases fh <;> simp [oelse, Option.getD, hexc]
    | netfail m =>
      have hhttp : isHttpFailure env v = false := by simp [isHttpFailure, henv]
      have hexc : excOf env v = ReqExc.net m v := by simp [excOf, henv]
      simp only [requestGo, henv]
      rw [ih _ _ _ hrest]
      rw [List.find?_cons_of_neg _ (by simp [hhttp])]
      simp only [Prod.mk.injEq]
      refine ⟨by simp, ?_⟩
      congr 1
      cases rest with
      | nil => cases fh <;> simp [oelse, hexc]
      | cons w ws =>
        rw [List.getLast?_cons_cons]
        have hne : (w :: ws).getLast?.isSome := by
          rw [List.getLast?_isSome]; simp
        obtain ⟨x, hx⟩ := Option.isSome_iff_exists.mp hne
        rw [hx]
        simp [oelse]

theorem addCandidate_eq_dedupStep (acc : List String) (url : String) :
    addCandidate acc url = dedupStep acc (rstripSlashes url) := rfl

theorem dedupNonEmpty_eq_foldl (xs : List String) :
    dedupNonEmpty xs = xs.foldl dedupStep [] := rfl

theorem dedupStep_ne_nil (acc : List String) (x : String) (h : acc ≠ []) :
    dedupStep acc x ≠ [] := by
  unfold dedupStep
  split
  · simp
  · exact h

theorem dedupStep_head (acc : List String) (x : String) (h : acc ≠ []) :
    (dedupStep acc x).head? = acc.head? := by
  unfold dedupStep
  split
  · cases acc with
    | nil => exact absurd rfl h
    | cons a l => simp
  · rfl

theorem foldl_dedupStep_head :
    ∀ (xs : List String) (acc : List String), acc ≠ [] →
      (xs.foldl dedupStep acc).head? = acc.head? := by
  intro xs
  induction xs with
  | nil => intro acc _; rfl
  | cons x rest ih =>
    intro acc h
    rw [List.foldl_cons, ih _ (dedupStep_ne_nil acc x h), dedupStep_head acc x h]

theorem dedupStep_nodup (acc : List String) (x : String) (h : acc.Nodup) :
    (dedupStep acc x).Nodup := by
  unfold dedupStep
  split
  · rename_i hcond
    have hx : x ∉ acc := by
      intro hmem
      exact hcond.2 (by simpa using hmem)
    simp [List.nodup_append, h, hx]
  · exact h

theorem foldl_dedupStep_nodup :
    ∀ (xs : List String) (acc : List String), acc.Nodup →
      (xs.foldl dedupStep acc).Nodup := by
  intro xs
  induction xs with
  | nil => intro acc h; exact h
  | cons x rest ih =>
    intro acc h
    exact ih _ (dedupStep_nodup acc x h)

theorem head?_dropWhile_false {α : Type} (p : α → Bool) :
    ∀ (l : List α) (c : α), (l.dropWhile p).head? = some c → p c = false := by
  intro l
  induction l with
  | nil => intro c h; simp [List.dropWhile] at h
  | cons a rest ih =>
    intro c h
    rw [List.dropWhile_cons] at h
    by_cases hp : p a = true
    · rw [if_pos hp] at h
      exact ih c h
    · rw [if_neg hp] at h
      simp at h
      rw [← h]
      simpa using hp

/-- Stripping trailing slashes leaves a string that does not end in one. -/
theorem endsWithSlash_rstripSlashes (s : String) :
    endsWithSlash (rstripSlashes s) = false := by
  unfold endsWithSlash rstripSlashes
  simp only [List.getLast?_reverse]
  cases hh : (s.data.reverse.dropWhile (fun c => c == '/')).head? with
  | none => rfl
  | some c =>
    have := head?_dropWhile_false (fun c => c == '/') s.data.reverse c hh
    simpa using this

theorem dedupStep_all_noSlash (acc : List String) (x : String)
    (hacc : acc.all (fun c => ! endsWithSlash c) = true)
    (hx : endsWithSlash x = false) :
    (dedupStep acc x).all (fun c => ! endsWithSlash c) = true := by
  unfold dedupStep
  split
  · simp only [List.all_append, Bool.and_eq_true]
    exact ⟨hacc, by simp [hx]⟩
  · exact hacc

theorem foldl_dedupStep_all_noSlash :
    ∀ (xs : List String) (acc : List String),
      xs.all (fun c => ! endsWithSlash c) = true →
      acc.all (fun c => ! endsWithSlash c) = true →
      (xs.foldl dedupStep acc).all (fun c => ! endsWithSlash c) = true := by
  intro xs
  induction xs with
  | nil => intro acc _ h; exact h
  | cons x rest ih =>
    intro acc hxs hacc
    rw [List.all_cons, Bool.and_eq_true] at hxs
    exact ih _ hxs.2 (dedupStep_all_noSlash acc x hacc (by simpa using hxs.1))

theorem string_append_ne_empty (s t : String) (h : s ≠ "") : s ++ t ≠ "" := by
  intro hc
  apply h
  have hd : s.data ++ t.data = [] := by
    have := congrArg String.data hc
    simpa using this
  have : s.data = [] := (List.append_eq_nil.mp hd).1
  cases s
  simp at this
  simp [this]

/-- C2: in a `request` call over de-duplicated candidates, a candidate that
answers with a 4xx status other than 404/405 makes the call raise that error
immediately: the contact trace stops exactly at that candidate (all earlier
continue-class candidates were each contacted once, no later candidate is
contacted), and the trace has no duplicates, so there is at most one network
attempt per candidate. -/
theorem request_authoritative_classification
    (env : String → RawResp) (urls : List String) (i : Nat) (u : String)
    (hnodup : urls.Nodup)
    (hget : urls.get? i = some u)
    (hskip : (urls.take i).all (isContinueKind env) = true)
    (hauth : isAuthFailure env u = true) :
    request env urls = (urls.take (i + 1), Except.error (excOf env u))
    ∧ ((request env urls).1).Nodup := by
  have h := requestGo_auth env i urls u hget hskip hauth none none []
  unfold request
  rw [h]
  refine ⟨by simp, ?_⟩
  simp only [List.nil_append]
  exact (List.take_sublist _ _).nodup hnodup

theorem request_authoritative_classification_witness :
    (["a", "b", "c"].Nodup)
    ∧ (["a", "b", "c"].get? 1 = some "b")
    ∧ ((["a", "b", "c"].take 1).all (isContinueKind envC2) = true)
    ∧ (isAuthFailure envC2 "b" = true)
    ∧ (request envC2 ["a", "b", "c"] = (["a", "b"], Except.error (ReqExc.http 400 "b"))
       ∧ ((request envC2 ["a", "b", "c"]).1).Nodup) :=
  ⟨by decide, by decide, by decide, by decide,
    request_authoritative_classification envC2 ["a", "b", "c"] 1 "b"
      (by decide) (by decide) (by decide) (by decide)⟩

/-- C4 (amended): when every candidate fails with a continue-class outcome
(no authoritative rejection, no success), `request` contacts all candidates
and raises the first recorded HTTP error of any status, else the last
recorded error, else a generic failure. -/
theorem request_exhausted_error_choice
    (env : String → RawResp) (urls : List String)
    (hall : urls.all (isContinueKind env) = true) :
    request env urls =
      (urls, Except.error
        ((oelse ((urls.find? (isHttpFailure env)).map (excOf env))
                ((urls.getLast?).map (excOf env))).getD
          (ReqExc.runtime "request failed"))) := by
  have h := requestGo_exhaust env urls none none [] hall
  unfold request
  rw [h]
  simp only [List.nil_append, oelse_none, oelse_none_right]

/-- C4 counterexample: on candidates ["A", "B"], no authoritative rejection is
encountered (so the claim as stated demands the last recorded transport error,
which is the timeout at "B"), but the code raises the 502 from "A" — the first
HTTP error of any status. -/
theorem request_exhausted_counterexample :
    isAuthFailure envC4 "A" = false
    ∧ isAuthFailure envC4 "B" = false
    ∧ isContinueKind envC4 "A" = true
    ∧ isContinueKind envC4 "B" = true
    ∧ (request envC4 ["A", "B"]).2 = Except.error (ReqExc.http 502 "A")
    ∧ excOf envC4 "B" = ReqExc.net "timeout" "B"
    ∧ ReqExc.http 502 "A" ≠ ReqExc.net "timeout" "B" := by
  decide

theorem request_exhausted_error_choice_witness :
    (["A", "B"].all (isContinueKind envC4) = true)
    ∧ request envC4 ["A", "B"] =
        (["A", "B"], Except.error
          ((oelse ((["A", "B"].find? (isHttpFailure envC4)).map (excOf envC4))
                  ((["A", "B"].getLast?).map (excOf envC4))).getD
            (ReqExc.runtime "request failed"))) :=
  ⟨by decide, request_exhausted_error_choice envC4 ["A", "B"] (by decide)⟩

/-- C3: for an input URL whose scheme is http/https and which has a host, the
candidate list is exactly the declared four candidates (original first, then
same scheme without port, opposite scheme with port, opposite scheme without
port), trailing-slash normalised, de-duplicated keeping first occurrences; it
is non-empty, starts with the normalised original URL, has no duplicates, and
no candidate ends with a trailing slash. -/
theorem build_fallback_base_urls_spec (base_url : String) (parsed : ParsedUrl)
    (hscheme : parsed.scheme = "http" ∨ parsed.scheme = "https")
    (hhost : parsed.host ≠ "")
    (horig : rstripSlashes base_url ≠ "") :
    build_fallback_base_urls base_url parsed = dedupNonEmpty (fallbackCandidateList base_url parsed)
    ∧ (build_fallback_base_urls base_url parsed).head? = some (rstripSlashes base_url)
    ∧ build_fallback_base_urls base_url parsed ≠ []
    ∧ (build_fallback_base_urls base_url parsed).Nodup
    ∧ (build_fallback_base_urls base_url parsed).all (fun c => ! endsWithSlash c) = true := by
  have hnetloc : netlocStr parsed ≠ "" := by
    unfold netlocStr
    exact string_append_ne_empty _ _ hhost
  have hmain : build_fallback_base_urls base_url parsed
      = dedupNonEmpty (fallbackCandidateList base_url parsed) := by
    unfold build_fallback_base_urls
    rw [if_pos ⟨hscheme, hnetloc⟩, if_pos hhost, if_pos hhost]
    rfl
  have hfold : dedupNonEmpty (fallbackCandidateList base_url parsed)
      = [rstripSlashes (urlunparse { parsed with port := none }),
         rstripSlashes (urlunparse { parsed with scheme := swapScheme parsed.scheme }),
         rstripSlashes (urlunparse { parsed with scheme := swapScheme parsed.scheme, port := none })
        ].foldl dedupStep [rstripSlashes base_url] := by
    rw [dedupNonEmpty_eq_foldl]
    unfold fallbackCandidateList
    rw [List.foldl_cons]
    have hstep : dedupStep [] (rstripSlashes base_url) = [rstripSlashes base_url] := by
      unfold dedupStep
      rw [if_pos ⟨horig, by simp⟩]
      rfl
    rw [hstep]
  refine ⟨hmain, ?_, ?_, ?_, ?_⟩
  · rw [hmain, hfold, foldl_dedupStep_head _ _ (by simp)]
    rfl
  · rw [hmain, hfold]
    intro hc
    have := foldl_dedupStep_head
      [rstripSlashes (urlunparse { parsed with port := none }),
       rstripSlashes (urlunparse { parsed with scheme := swapScheme parsed.scheme }),
       rstripSlashes (urlunparse { parsed with scheme := swapScheme parsed.scheme, port := none })]
      [rstripSlashes base_url] (by simp)
    rw [hc] at this
    simp at this
  · rw [hmain, dedupNonEmpty_eq_foldl]
    exact foldl_dedupStep_nodup _ _ List.nodup_nil
  · rw [hmain, dedupNonEmpty_eq_foldl]
    refine foldl_dedupStep_all_noSlash _ _ ?_ (by simp)
    unfold fallbackCandidateList
    simp [endsWithSlash_rstripSlashes]

theorem build_fallback_base_urls_spec_witness :
    (parsedC3.scheme = "http" ∨ parsedC3.scheme = "https")
    ∧ parsedC3.host ≠ ""
    ∧ rstripSlashes "http://example.com:13001/api" ≠ ""
    ∧ (build_fallback_base_urls "http://example.com:13001/api" parsedC3
        = dedupNonEmpty (fallbackCandidateList "http://example.com:13001/api" parsedC3)
      ∧ (build_fallback_base_urls "http://example.com:13001/api" parsedC3).head?
        = some (rstripSlashes "http://example.com:13001/api")
      ∧ build_fallback_base_urls "http://example.com:13001/api" parsedC3 ≠ []
      ∧ (build_fallback_base_urls "http://example.com:13001/api" parsedC3).Nodup
      ∧ (build_fallback_base_urls "http://example.com:13001/api" parsedC3).all
          (fun c => ! endsWithSlash c) = true) :=
  ⟨Or.inl rfl, by decide, by decide,
    build_fallback_base_urls_spec "http://example.com:13001/api" parsedC3
      (Or.inl rfl) (by decide) (by decide)⟩

/-! ## Lookup characterisation of the mapping phases -/

theorem oelse_assoc {α : Type} (a b c : Option α) :
    oelse (oelse a b) c = oelse a (oelse b c) := by
  cases a <;> rfl

theorem alookup_nil {κ α : Type} [BEq κ] (c : κ) :
    alookup ([] : List (κ × α)) c = none := rfl

theorem alookup_append_single {κ α : Type} [BEq κ] (m : List (κ × α)) (k : κ) (v : α) (c : κ) :
    alookup (m ++ [(k, v)]) c = oelse (alookup m c) (if k == c then some v else none) := by
  unfold alookup
  rw [List.find?_append]
  cases h : m.find? (fun p => p.1 == c) with
  | some p => simp [Option.or, oelse]
  | none =>
    by_cases hk : (k == c) = true <;> simp [Option.or, oelse, List.find?, hk]

theorem mappingPhase1_lookup (cf : FieldsT) (col : String) :
    ∀ (items : List (String × String)) (m r : MapT),
      (alookup m col).isSome = (alookup r col).isSome →
      alookup (mappingPhase1 cf items (m, r)).1 col
        = oelse (alookup m col)
            ((firstHit (fun p => p.1 == col && amem cf p.2) items).map (fun p => p.2))
      ∧ alookup (mappingPhase1 cf items (m, r)).2 col
        = oelse (alookup r col)
            ((firstHit (fun p => p.1 == col && amem cf p.2) items).map (fun _ => "explicit")) := by
  intro items
  induction items with
  | nil =>
    intro m r _
    simp [mappingPhase1, oelse_none_right]
  | cons it rest ih =>
    intro m r hsync
    obtain ⟨c, f⟩ := it
    by_cases hmem : amem m c = true
    · rw [show mappingPhase1 cf ((c, f) :: rest) (m, r) = mappingPhase1 cf rest (m, r) from by
        simp [mappingPhase1, hmem]]
      obtain ⟨ih1, ih2⟩ := ih m r hsync
      by_cases hc : c = col
      · subst hc
        unfold amem at hmem
        obtain ⟨x, hx⟩ := Option.isSome_iff_exists.mp hmem
        have hr : (alookup r c).isSome = true := by rw [← hsync, hx]; rfl
        obtain ⟨y, hy⟩ := Option.isSome_iff_exists.mp hr
        rw [ih1, ih2, hx, hy]
        simp [oelse]
      · have hcc : (c == col) = false := beq_eq_false_iff_ne.mpr hc
        rw [firstHit_cons]
        simp only [hcc, Bool.false_and, Bool.false_eq_true, if_false]
        exact ⟨ih1, ih2⟩
    · by_cases hf : amem cf f = true
      · rw [show mappingPhase1 cf ((c, f) :: rest) (m, r)
            = mappingPhase1 cf rest (m ++ [(c, f)], r ++ [(c, "explicit")]) from by
          simp [mappingPhase1, hmem, hf]]
        have hsync2 : (alookup (m ++ [(c, f)]) col).isSome
            = (alookup (r ++ [(c, "explicit")]) col).isSome := by
          rw [alookup_append_single, alookup_append_single]
          rcases h1 : alookup m col with _ | x <;> rcases h2 : alookup r col with _ | y
          · by_cases hc : (c == col) = true <;> simp [oelse, hc]
          · rw [h1, h2] at hsync; simp at hsync
          · rw [h1, h2] at hsync; simp at hsync
          · simp [oelse]
        obtain ⟨ih1, ih2⟩ := ih _ _ hsync2
        rw [firstHit_cons]
        have hmem2 : alookup m c = none := by
          unfold amem at hmem
          simpa using hmem
        by_cases hc : c = col
        · subst hc
          simp only [Prod.fst, hf, beq_self_eq_true, Bool.true_and, if_true]
          have hrnone : alookup r c = none := by
            cases h : alookup r c with
            | none => rfl
            | some y => rw [hmem2, h] at hsync; simp at hsync
          constructor
          · rw [ih1, alookup_append_single, oelse_assoc, hmem2]
            simp [oelse]
          · rw [ih2, alookup_append_single, oelse_assoc, hrnone]
            simp [oelse]
        · have hcc : (c == col) = false := beq_eq_false_iff_ne.mpr hc
          simp only [hcc, Bool.false_and, Bool.false_eq_true, if_false]
          constructor
          · rw [ih1, alookup_append_single, oelse_assoc]
            simp [hcc, oelse]
          · rw [ih2, alookup_append_single, oelse_assoc]
            simp [hcc, oelse]
      · rw [show mappingPhase1 cf ((c, f) :: rest) (m, r) = mappingPhase1 cf rest (m, r) from by
          simp [mappingPhase1, hmem, hf]]
        have hf2 : amem cf f = false := by simpa using hf
        rw [firstHit_cons]
        simp only [hf2, Bool.and_false, Bool.false_eq_true, if_false]
        exact ih m r hsync

theorem mem_cons_ne_iff {c col : String} (rest : List String) (hc : ¬ c = col) :
    (col ∈ c :: rest) ↔ (col ∈ rest) :=
  ⟨fun h => (List.mem_cons.mp h).resolve_left (fun h1 => absurd h1.symm hc),
   fun h => List.mem_cons_of_mem _ h⟩

theorem mappingPhase2_lookup (cf : FieldsT) (excluded : List String) (col : String) :
    ∀ (cols : List String) (m r : MapT),
      (alookup m col).isSome = (alookup r col).isSome →
      alookup (mappingPhase2 cf excluded cols (m, r)).1 col
        = oelse (alookup m col)
            (if col ∈ cols ∧ amem cf col = true ∧ allowed_field cf excluded col = true
             then some col else none)
      ∧ alookup (mappingPhase2 cf excluded cols (m, r)).2 col
        = oelse (alookup r col)
            (if col ∈ cols ∧ amem cf col = true ∧ allowed_field cf excluded col = true
             then some "match_field_name" else none) := by
  intro cols
  induction cols with
  | nil =>
    intro m r _
    simp [mappingPhase2, oelse_none_right]
  | cons c rest ih =>
    intro m r hsync
    by_cases hmem : amem m c = true
    · rw [show mappingPhase2 cf excluded (c :: rest) (m, r) = mappingPhase2 cf excluded rest (m, r)
          from by simp [mappingPhase2, hmem]]
      obtain ⟨ih1, ih2⟩ := ih m r hsync
      by_cases hc : c = col
      · subst hc
        unfold amem at hmem
        obtain ⟨x, hx⟩ := Option.isSome_iff_exists.mp hmem
        have hr : (alookup r c).isSome = true := by rw [← hsync, hx]; rfl
        obtain ⟨y, hy⟩ := Option.isSome_iff_exists.mp hr
        rw [ih1, ih2, hx, hy]
        simp [oelse]
      · rw [ih1, ih2]
        refine ⟨?_, ?_⟩ <;> simp only [mem_cons_ne_iff rest hc]
    · by_cases hcond : amem cf c = true ∧ allowed_field cf excluded c = true
      · rw [show mappingPhase2 cf excluded (c :: rest) (m, r)
            = mappingPhase2 cf excluded rest
                (m ++ [(c, c)], r ++ [(c, "match_field_name")]) from by
          simp [mappingPhase2, hmem, hcond.1, hcond.2]]
        have hmem2 : alookup m c = none := by
          unfold amem at hmem
          simpa using hmem
        have hsync2 : (alookup (m ++ [(c, c)]) col).isSome
            = (alookup (r ++ [(c, "match_field_name")]) col).isSome := by
          rw [alookup_append_single, alookup_append_single]
          rcases h1 : alookup m col with _ | x <;> rcases h2 : alookup r col with _ | y
          · by_cases hb : (c == col) = true <;> simp [oelse, hb]
          · rw [h1, h2] at hsync; simp at hsync
          · rw [h1, h2] at hsync; simp at hsync
          · simp [oelse]
        obtain ⟨ih1, ih2⟩ := ih _ _ hsync2
        by_cases hc : c = col
        · subst hc
          have hrnone : alookup r c = none := by
            cases h : alookup r c with
            | none => rfl
            | some y => rw [hmem2, h] at hsync; simp at hsync
          constructor
          · rw [ih1, alookup_append_single, oelse_assoc, hmem2]
            simp [oelse, hcond.1, hcond.2]
          · rw [ih2, alookup_append_single, oelse_assoc, hrnone]
            simp [oelse, hcond.1, hcond.2]
        · have hcc : (c == col) = false := beq_eq_false_iff_ne.mpr hc
          constructor
          · rw [ih1, alookup_append_single, oelse_assoc]
            simp only [mem_cons_ne_iff rest hc, hcc]
            simp [oelse]
          · rw [ih2, alookup_append_single, oelse_assoc]
            simp only [mem_cons_ne_iff rest hc, hcc]
            simp [oelse]
      · rw [show mappingPhase2 cf excluded (c :: rest) (m, r) = mappingPhase2 cf excluded rest (m, r)
            from by
          simp only [mappingPhase2]
          rw [if_neg hmem, if_neg hcond]]
        obtain ⟨ih1, ih2⟩ := ih m r hsync
        by_cases hc : c = col
        · subst hc
          rw [ih1, ih2]
          have hno : ¬ (c ∈ c :: rest ∧ amem cf c = true ∧ allowed_field cf excluded c = true) := by
            intro hx
            exact hcond ⟨hx.2.1, hx.2.2⟩
          have hno2 : ¬ (c ∈ rest ∧ amem cf c = true ∧ allowed_field cf excluded c = true) := by
            intro hx
            exact hcond ⟨hx.2.1, hx.2.2⟩
          refine ⟨?_, ?_⟩ <;> rw [if_neg hno, if_neg hno2]
        · rw [ih1, ih2]
          refine ⟨?_, ?_⟩ <;> simp only [mem_cons_ne_iff rest hc]

theorem insertTitleList_lookup (name : String) (T : String) :
    ∀ (ts : List String) (t2n : MapT),
      alookup (insertTitleList name ts t2n) T
        = oelse (alookup t2n T) (if T ∈ ts then some name else none) := by
  intro ts
  induction ts with
  | nil =>
    intro t2n
    simp [insertTitleList, oelse_none_right]
  | cons t rest ih =>
    intro t2n
    by_cases hmem : amem t2n t = true
    · rw [show insertTitleList name (t :: rest) t2n = insertTitleList name rest t2n from by
        simp [insertTitleList, hmem]]
      by_cases ht : t = T
      · subst ht
        unfold amem at hmem
        obtain ⟨x, hx⟩ := Option.isSome_iff_exists.mp hmem
        rw [ih, hx]
        simp [oelse]
      · rw [ih]
        simp only [mem_cons_ne_iff rest ht]
    · rw [show insertTitleList name (t :: rest) t2n
          = insertTitleList name rest (t2n ++ [(t, name)]) from by
        simp [insertTitleList, hmem]]
      have hmem2 : alookup t2n t = none := by
        unfold amem at hmem
        simpa using hmem
      by_cases ht : t = T
      · subst ht
        rw [ih, alookup_append_single, oelse_assoc, hmem2]
        simp [oelse]
      · have hcc : (t == T) = false := beq_eq_false_iff_ne.mpr ht
        rw [ih, alookup_append_single, oelse_assoc]
        simp only [mem_cons_ne_iff rest ht, hcc]
        simp [oelse]

theorem buildTitleToName_lookup (cf : FieldsT) (excluded : List String) (T : String) :
    ∀ (sub : FieldsT) (t2n : MapT),
      alookup (buildTitleToName cf excluded sub t2n) T
        = oelse (alookup t2n T)
            ((firstHit (fun q => allowed_field cf excluded q.1
                && (_field_titles q.2).contains T) sub).map (fun q => q.1)) := by
  intro sub
  induction sub with
  | nil =>
    intro t2n
    simp [buildTitleToName, oelse_none_right]
  | cons nf rest ih =>
    intro t2n
    obtain ⟨name, fdef⟩ := nf
    rw [firstHit_cons]
    by_cases hall : allowed_field cf excluded name = true
    · rw [show buildTitleToName cf excluded ((name, fdef) :: rest) t2n
          = buildTitleToName cf excluded rest (insertTitleList name (_field_titles fdef) t2n)
          from by simp [buildTitleToName, hall]]
      rw [ih, insertTitleList_lookup, oelse_assoc]
      by_cases hT : T ∈ _field_titles fdef
      · have hcont : (_field_titles fdef).contains T = true := by
          exact List.elem_eq_true_of_mem hT
        simp [hall, hcont, hT, oelse]
      · have hcont : (_field_titles fdef).contains T = false := by
          by_contra hx
          simp only [Bool.not_eq_false] at hx
          exact hT (List.mem_of_elem_eq_true hx)
        simp [hall, hcont, hT, oelse]
    · rw [show buildTitleToName cf excluded ((name, fdef) :: rest) t2n
          = buildTitleToName cf excluded rest t2n from by simp [buildTitleToName, hall]]
      have hall2 : allowed_field cf excluded name = false := by simpa using hall
      rw [ih]
      simp [hall2]

theorem mappingPhase3_lookup (t2n : MapT) (col : String) :
    ∀ (cols : List String) (m r : MapT),
      (alookup m col).isSome = (alookup r col).isSome →
      alookup (mappingPhase3 t2n cols (m, r)).1 col
        = oelse (alookup m col)
            (if col ∈ cols then
               match alookup t2n col with
               | some target => if target ≠ "" then some target else none
               | none => none
             else none)
      ∧ alookup (mappingPhase3 t2n cols (m, r)).2 col
        = oelse (alookup r col)
            (if col ∈ cols then
               match alookup t2n col with
               | some target => if target ≠ "" then some "match_field_title" else none
               | none => none
             else none) := by
  intro cols
  induction cols with
  | nil =>
    intro m r _
    simp [mappingPhase3, oelse_none_right]
  | cons c rest ih =>
    intro m r hsync
    by_cases hmem : amem m c = true
    · rw [show mappingPhase3 t2n (c :: rest) (m, r) = mappingPhase3 t2n rest (m, r)
          from by simp [mappingPhase3, hmem]]
      obtain ⟨ih1, ih2⟩ := ih m r hsync
      by_cases hc : c = col
      · subst hc
        unfold amem at hmem
        obtain ⟨x, hx⟩ := Option.isSome_iff_exists.mp hmem
        have hr : (alookup r c).isSome = true := by rw [← hsync, hx]; rfl
        obtain ⟨y, hy⟩ := Option.isSome_iff_exists.mp hr
        rw [ih1, ih2, hx, hy]
        simp [oelse]
      · rw [ih1, ih2]
        refine ⟨?_, ?_⟩ <;> simp only [mem_cons_ne_iff rest hc]
    · have hmem2 : alookup m c = none := by
        unfold amem at hmem
        simpa using hmem
      cases htgt : alookup t2n c with
      | some target =>
        by_cases hne : target ≠ ""
        · rw [show mappingPhase3 t2n (c :: rest) (m, r)
              = mappingPhase3 t2n rest
                  (m ++ [(c, target)], r ++ [(c, "match_field_title")]) from by
            simp only [mappingPhase3]
            rw [if_neg hmem, htgt]
            simp [hne]]
          have hsync2 : (alookup (m ++ [(c, target)]) col).isSome
              = (alookup (r ++ [(c, "match_field_title")]) col).isSome := by
            rw [alookup_append_single, alookup_append_single]
            rcases h1 : alookup m col with _ | x <;> rcases h2 : alookup r col with _ | y
            · by_cases hb : (c == col) = true <;> simp [oelse, hb]
            · rw [h1, h2] at hsync; simp at hsync
            · rw [h1, h2] at hsync; simp at hsync
            · simp [oelse]
          obtain ⟨ih1, ih2⟩ := ih _ _ hsync2
          by_cases hc : c = col
          · subst hc
            have hrnone : alookup r c = none := by
              cases h : alookup r c with
              | none => rfl
              | some y => rw [hmem2, h] at hsync; simp at hsync
            constructor
            · rw [ih1, alookup_append_single, oelse_assoc, hmem2, htgt]
              simp [oelse, hne]
            · rw [ih2, alookup_append_single, oelse_assoc, hrnone, htgt]
              simp [oelse, hne]
          · have hcc : (c == col) = false := beq_eq_false_iff_ne.mpr hc
            constructor
            · rw [ih1, alookup_append_single, oelse_assoc]
              simp only [mem_cons_ne_iff rest hc, hcc]
              simp [oelse]
            · rw [ih2, alookup_append_single, oelse_assoc]
              simp only [mem_cons_ne_iff rest hc, hcc]
              simp [oelse]
        · have hte : target = "" := by
            by_contra hx
            exact hne hx
          rw [show mappingPhase3 t2n (c :: rest) (m, r) = mappingPhase3 t2n rest (m, r) from by
            simp only [mappingPhase3]
            rw [if_neg hmem, htgt]
            simp [hte]]
          obtain ⟨ih1, ih2⟩ := ih m r hsync
          by_cases hc : c = col
          · subst hc
            have hrnone : alookup r c = none := by
              cases h : alookup r c with
              | none => rfl
              | some y => rw [hmem2, h] at hsync; simp at hsync
            subst hte
            rw [ih1, ih2, hmem2, hrnone, htgt]
            simp [oelse]
          · rw [ih1, ih2]
            refine ⟨?_, ?_⟩ <;> simp only [mem_cons_ne_iff rest hc]
      | none =>
        rw [show mappingPhase3 t2n (c :: rest) (m, r) = mappingPhase3 t2n rest (m, r) from by
          simp only [mappingPhase3]
          rw [if_neg hmem, htgt]]
        obtain ⟨ih1, ih2⟩ := ih m r hsync
        by_cases hc : c = col
        · subst hc
          have hrnone : alookup r c = none := by
            cases h : alookup r c with
            | none => rfl
            | some y => rw [hmem2, h] at hsync; simp at hsync
          rw [ih1, ih2, hmem2, hrnone, htgt]
          simp [oelse]
        · rw [ih1, ih2]
          refine ⟨?_, ?_⟩ <;> simp only [mem_cons_ne_iff rest hc]

theorem oelse_isSome_congr {α β : Type} (a : Option α) (b : Option β)
    (x : Option α) (y : Option β)
    (h1 : a.isSome = b.isSome) (h2 : x.isSome = y.isSome) :
    (oelse a x).isSome = (oelse b y).isSome := by
  cases a <;> cases b <;> simp at h1 <;> simp [oelse, h2]

/-- C6: every column is resolved by `build_excel_field_mapping` exactly as the
priority description of the spec (`specResolveColumn`) dictates — explicit override
first (accepted iff the named field exists), then identifier equality on a
non-excluded field, then title equality bound to the first non-excluded field
in schema order carrying the title — both for the mapped field and for the
recorded reason. -/
theorem build_excel_field_mapping_resolution
    (excel_columns : List String) (collection_fields : FieldsT)
    (explicit_mapping : Option (List (String × String)))
    (exclude_field_types : Option (List String)) (col : String) :
    alookup (build_excel_field_mapping excel_columns collection_fields
        explicit_mapping exclude_field_types).1 col
      = (specResolveColumn excel_columns collection_fields
          explicit_mapping exclude_field_types col).map (fun p => p.1)
    ∧ alookup (build_excel_field_mapping excel_columns collection_fields
        explicit_mapping exclude_field_types).2 col
      = (specResolveColumn excel_columns collection_fields
          explicit_mapping exclude_field_types col).map (fun p => p.2) := by
  have hbuild : build_excel_field_mapping excel_columns collection_fields
        explicit_mapping exclude_field_types
      = mappingPhase3
          (buildTitleToName collection_fields (exclude_field_types.getD [])
            collection_fields [])
          excel_columns
          (mappingPhase2 collection_fields (exclude_field_types.getD []) excel_columns
            (mappingPhase1 collection_fields (explicit_mapping.getD []) ([], []))) := rfl
  rcases hst1 : mappingPhase1 collection_fields (explicit_mapping.getD [])
      (([] : MapT), ([] : MapT)) with ⟨m1, r1⟩
  rcases hst2 : mappingPhase2 collection_fields (exclude_field_types.getD [])
      excel_columns (m1, r1) with ⟨m2, r2⟩
  have h1 := mappingPhase1_lookup collection_fields col (explicit_mapping.getD []) [] [] rfl
  rw [hst1] at h1
  have hm1 : alookup m1 col
      = (firstHit (fun p => p.1 == col && amem collection_fields p.2)
          (explicit_mapping.getD [])).map (fun p => p.2) := by
    have := h1.1
    simpa [alookup_nil] using this
  have hr1 : alookup r1 col
      = (firstHit (fun p => p.1 == col && amem collection_fields p.2)
          (explicit_mapping.getD [])).map (fun _ => "explicit") := by
    have := h1.2
    simpa [alookup_nil] using this
  have hsync1 : (alookup m1 col).isSome = (alookup r1 col).isSome := by
    rw [hm1, hr1]
    cases firstHit (fun p => p.1 == col && amem collection_fields p.2)
        (explicit_mapping.getD []) <;> simp
  have h2 := mappingPhase2_lookup collection_fields (exclude_field_types.getD [])
      col excel_columns m1 r1 hsync1
  rw [hst2] at h2
  have hm2 : alookup m2 col
      = oelse (alookup m1 col)
          (if col ∈ excel_columns ∧ amem collection_fields col = true
              ∧ allowed_field collection_fields (exclude_field_types.getD []) col = true
           then some col else none) := h2.1
  have hr2 : alookup r2 col
      = oelse (alookup r1 col)
          (if col ∈ excel_columns ∧ amem collection_fields col = true
              ∧ allowed_field collection_fields (exclude_field_types.getD []) col = true
           then some "match_field_name" else none) := h2.2
  have hsync2 : (alookup m2 col).isSome = (alookup r2 col).isSome := by
    rw [hm2, hr2]
    refine oelse_isSome_congr _ _ _ _ hsync1 ?_
    by_cases hcnd : col ∈ excel_columns ∧ amem collection_fields col = true
        ∧ allowed_field collection_fields (exclude_field_types.getD []) col = true
    · rw [if_pos hcnd, if_pos hcnd]; rfl
    · rw [if_neg hcnd, if_neg hcnd]
  have h3 := mappingPhase3_lookup
      (buildTitleToName collection_fields (exclude_field_types.getD []) collection_fields [])
      col excel_columns m2 r2 hsync2
  have ht2n : alookup (buildTitleToName collection_fields (exclude_field_types.getD [])
        collection_fields []) col
      = (firstHit (fun q => allowed_field collection_fields (exclude_field_types.getD []) q.1
          && (_field_titles q.2).contains col) collection_fields).map (fun q => q.1) := by
    rw [buildTitleToName_lookup]
    simp [alookup_nil]
  rw [hbuild, hst1, hst2, h3.1, h3.2, hm2, hr2, hm1, hr1, ht2n]
  unfold specResolveColumn
  cases hfind : firstHit (fun p => p.1 == col && amem collection_fields p.2)
      (explicit_mapping.getD []) with
  | some p =>
    constructor <;> rfl
  | none =>
    by_cases hcnd : col ∈ excel_columns ∧ amem collection_fields col = true
        ∧ allowed_field collection_fields (exclude_field_types.getD []) col = true
    · rw [if_pos hcnd, if_pos hcnd, if_pos hcnd]
      constructor <;> rfl
    · rw [if_neg hcnd, if_neg hcnd, if_neg hcnd]
      by_cases hmemc : col ∈ excel_columns
      · rw [if_pos hmemc, if_pos hmemc, if_pos hmemc]
        cases hth : firstHit (fun q => allowed_field collection_fields
            (exclude_field_types.getD []) q.1
            && (_field_titles q.2).contains col) collection_fields with
        | some q =>
          by_cases hq : q.1 = ""
          · constructor <;> simp [hq, oelse]
          · constructor <;> simp [hq, oelse]
        | none => constructor <;> simp [oelse]
      · rw [if_neg hmemc, if_neg hmemc, if_neg hmemc]
        constructor <;> simp [oelse]

/-! ## Claim support for the import pipeline -/

theorem dictSet_mem {κ α : Type} [BEq κ] :
    ∀ (m : List (κ × α)) (k : κ) (v : α) (p : κ × α),
      p ∈ dictSet m k v → p ∈ m ∨ p = (k, v) := by
  intro m
  induction m with
  | nil =>
    intro k v p h
    simp [dictSet] at h
    simp [h]
  | cons q rest ih =>
    intro k v p h
    simp only [dictSet] at h
    by_cases hq : (q.1 == k) = true
    · rw [if_pos hq] at h
      rcases List.mem_cons.mp h with h1 | h1
      · exact Or.inr h1
      · exact Or.inl (List.mem_cons_of_mem _ h1)
    · rw [if_neg hq] at h
      rcases List.mem_cons.mp h with h1 | h1
      · exact Or.inl (by simp [h1])
      · rcases ih k v p h1 with h2 | h2
        · exact Or.inl (List.mem_cons_of_mem _ h2)
        · exact Or.inr h2

/-- Values stored by the row loop are never null: both write sites are guarded
by a non-null test. -/
theorem buildRowValues_no_null (env : ImportEnv) (rbt cm : Bool)
    (fields : FieldsT) (row : Row) :
    ∀ (mapping : List (String × String)) (values : Row) (cache : Cache)
      (vals : Row) (cache2 : Cache),
      (∀ p : String × Val, p ∈ values → p.2 ≠ Val.vnone) →
      (buildRowValues env rbt cm fields row mapping values cache).1
        = Except.ok (vals, cache2) →
      ∀ p : String × Val, p ∈ vals → p.2 ≠ Val.vnone := by
  intro mapping
  induction mapping with
  | nil =>
    intro values cache vals cache2 hv hok p hp
    simp only [buildRowValues] at hok
    obtain ⟨h1, h2⟩ := by simpa using hok
    subst h1
    exact hv p hp
  | cons itm rest ih =>
    intro values cache vals cache2 hv hok p hp
    obtain ⟨excel_col, field_name⟩ := itm
    simp only [buildRowValues] at hok
    split at hok
    · -- field_def = some fd
      rename_i fd hfd
      split at hok
      · -- belongsTo branch
        split at hok
        · -- v0 = vnone : plain recursion
          exact ih values cache vals cache2 hv hok p hp
        · -- resolver called
          split at hok
          · -- resolver raised
            simp at hok
          · -- resolver ok
            rename_i fk_value cache' tr1 hres
            split at hok
            · -- foreignKey is a string
              rename_i fk_name hfk
              split at hok
              · -- null fk value or empty name: skip
                simp only at hok
                exact ih values cache' vals cache2 hv hok p hp
              · -- store the fk value
                rename_i hguard
                simp only at hok
                refine ih (dictSet values fk_name fk_value) cache' vals cache2 ?_ hok p hp
                intro q hq
                rcases dictSet_mem values fk_name fk_value q hq with h1 | h1
                · exact hv q h1
                · rw [h1]
                  intro hc
                  exact hguard (Or.inl hc)
            · -- foreignKey missing: skip
              simp only at hok
              exact ih values cache' vals cache2 hv hok p hp
      · -- plain conversion branch
        split at hok
        · exact ih values cache vals cache2 hv hok p hp
        · rename_i hne
          refine ih (dictSet values field_name (_convert_by_field_type
              ((alookup row excel_col).getD Val.vnone) (alookup fields field_name)))
            cache vals cache2 ?_ hok p hp
          intro q hq
          rcases dictSet_mem values field_name _ q hq with h1 | h1
          · exact hv q h1
          · rw [h1]
            exact hne
    · -- field_def = none
      split at hok
      · exact ih values cache vals cache2 hv hok p hp
      · rename_i hne
        refine ih (dictSet values field_name (_convert_by_field_type
            ((alookup row excel_col).getD Val.vnone) (alookup fields field_name)))
          cache vals cache2 ?_ hok p hp
        intro q hq
        rcases dictSet_mem values field_name _ q hq with h1 | h1
        · exact hv q h1
        · rw [h1]
          exact hne

/-- C7: a blank, empty or missing cell coerces to null whatever the field
definition, and the Write Values built for a row never contain an explicit
null entry. -/
theorem convert_blank_null_and_omitted
    (v0 : Val) (fd : Option FieldDef) (h : _is_empty_cell v0 = true)
    (env : ImportEnv) (rbt cm : Bool) (fields : FieldsT) (row : Row)
    (mapping : List (String × String)) (cache : Cache)
    (vals : Row) (cache2 : Cache) (k : String) (w : Val)
    (hok : (buildRowValues env rbt cm fields row mapping [] cache).1
      = Except.ok (vals, cache2))
    (hmem : (k, w) ∈ vals) :
    _convert_by_field_type v0 fd = Val.vnone ∧ w ≠ Val.vnone := by
  constructor
  · simp [_convert_by_field_type, _to_python_scalar, h]
  · exact buildRowValues_no_null env rbt cm fields row mapping [] cache vals cache2
      (by intro p hp; simp at hp) hok (k, w) hmem

theorem convert_blank_null_and_omitted_witness :
    _is_empty_cell (Val.vstr "   ") = true
    ∧ (buildRowValues envInert true false [("a", fdStr)] [("a", Val.vstr "x")]
        [("a", "a")] [] []).1 = Except.ok ([("a", Val.vstr "x")], [])
    ∧ ("a", Val.vstr "x") ∈ [("a", Val.vstr "x")]
    ∧ (_convert_by_field_type (Val.vstr "   ") (some fdStr) = Val.vnone
       ∧ Val.vstr "x" ≠ Val.vnone) :=
  ⟨by decide, by decide, by decide,
    convert_blank_null_and_omitted (Val.vstr "   ") (some fdStr) (by decide)
      envInert true false [("a", fdStr)] [("a", Val.vstr "x")] [("a", "a")] []
      [("a", Val.vstr "x")] [] "a" (Val.vstr "x") (by decide) (by decide)⟩

/-- C8: the foreign-key resolver fails with the configuration error when the
field definition lacks a usable target or foreign-key name, returns null for a
blank trimmed label, and fails with the reference-not-found error when no row
of the scanned page matches the label and creation is disabled (the call
scenario is pinned down by the cache miss and the oracle answers). -/
theorem resolve_belongs_to_fk_spec
    (env : ImportEnv) (cm : Bool) (cache : Cache) (fd : FieldDef) (dv : Val)
    (target fk : String) (tfv : Val) (rows : List Row) :
    ((fd.target = none ∨ fd.target = some "") →
      (resolve_belongs_to_fk env cm cache fd dv).1
        = Except.error (PyErr.runtime "belongsTo 缺少 target"))
    ∧ (fd.target = some target → target ≠ "" →
        (fd.foreignKey = none ∨ fd.foreignKey = some "") →
      (resolve_belongs_to_fk env cm cache fd dv).1
        = Except.error (PyErr.runtime "belongsTo 缺少 foreignKey"))
    ∧ (fd.target = some target → target ≠ "" → fd.foreignKey = some fk → fk ≠ "" →
        stripStr (pyStr dv) = "" →
      (resolve_belongs_to_fk env cm cache fd dv).1 = Except.ok (Val.vnone, cache))
    ∧ (fd.target = some target → target ≠ "" → fd.foreignKey = some fk → fk ≠ "" →
        stripStr (pyStr dv) ≠ "" →
        env.titleFieldAttr target = Except.ok tfv →
        alookup cache (target, effTitleField tfv, stripStr (pyStr dv)) = none →
        env.listRows target = Except.ok rows →
        rows.find? (fun r =>
          stripStr (pyStr ((alookup r (effTitleField tfv)).getD (Val.vstr "")))
            == stripStr (pyStr dv)) = none →
        cm = false →
      (resolve_belongs_to_fk env cm cache fd dv).1
        = Except.error (PyErr.runtime ("belongsTo 未找到目标记录：" ++ target ++ "."
            ++ effTitleField tfv ++ " == " ++ stripStr (pyStr dv)))) := by
  refine ⟨?_, ?_, ?_, ?_⟩
  · intro h
    rcases h with h | h <;> simp [resolve_belongs_to_fk, h]
  · intro ht htne h
    rcases h with h | h <;> simp [resolve_belongs_to_fk, ht, htne, h]
  · intro ht htne hfk hfkne hblank
    simp [resolve_belongs_to_fk, ht, htne, hfk, hfkne, hblank]
  · intro ht htne hfk hfkne hlabel htf hcache hrows hfind hcm
    subst hcm
    simp [resolve_belongs_to_fk, ht, htne, hfk, hfkne, hlabel, htf, hcache, hrows, hfind]

theorem resolve_belongs_to_fk_spec_witness :
    ((resolve_belongs_to_fk envC8 false [] fdNoTarget (Val.vstr "x")).1
       = Except.error (PyErr.runtime "belongsTo 缺少 target"))
    ∧ ((resolve_belongs_to_fk envC8 false [] fdNoFk (Val.vstr "x")).1
       = Except.error (PyErr.runtime "belongsTo 缺少 foreignKey"))
    ∧ ((resolve_belongs_to_fk envC8 false [] fdC8 (Val.vstr "  ")).1
       = Except.ok (Val.vnone, []))
    ∧ ((resolve_belongs_to_fk envC8 false [] fdC8 (Val.vstr "Ghost")).1
       = Except.error (PyErr.runtime "belongsTo 未找到目标记录：t.name == Ghost")) :=
  ⟨(resolve_belongs_to_fk_spec envC8 false [] fdNoTarget (Val.vstr "x")
      "t" "fk" Val.vnone []).1 (Or.inl rfl),
   (resolve_belongs_to_fk_spec envC8 false [] fdNoFk (Val.vstr "x")
      "t" "fk" Val.vnone []).2.1 rfl (by decide) (Or.inl rfl),
   (resolve_belongs_to_fk_spec envC8 false [] fdC8 (Val.vstr "  ")
      "t" "fk" Val.vnone []).2.2.1 rfl (by decide) rfl (by decide) (by decide),
   (resolve_belongs_to_fk_spec envC8 false [] fdC8 (Val.vstr "Ghost")
      "t" "fk" Val.vnone []).2.2.2 rfl (by decide) rfl (by decide) (by decide)
      rfl (by decide) rfl (by decide) rfl⟩

/-- C1 (code bug): with two rows whose belongsTo labels are "Ghost" (absent
from the target table, creation disabled) and "Known" (resolvable), the
foreign-key failure on row 1 raises out of `import_excel_to_collection` — the
whole run aborts with no Import Result, the failing row is not recorded and
row 2 is never attempted (empty create trace); the same run restricted to row
2 succeeds, which shows the aborted run lost it. -/
theorem import_fk_failure_aborts_run :
    import_excel_to_collection envC1 "orders"
        [[("customer", Val.vstr "Ghost")], [("customer", Val.vstr "Known")]]
        ["customer"] 0 false none true false
      = (Except.error (PyErr.runtime
          "belongsTo 字段解析失败：customer(customer)：belongsTo 未找到目标记录：t_customers.name == Ghost"), [])
    ∧ (import_excel_to_collection envC1 "orders" [[("customer", Val.vstr "Known")]]
        ["customer"] 0 false none true false).1
      = Except.ok { rows := 1, cols := 1,
                    mapping := [("customer", "customer")],
                    reasons := [("customer", "match_field_name")],
                    unmapped := [], total := 1, success := 1, failed := 0,
                    errors := [], preview := none } := by
  constructor
  · rfl
  · rfl

theorem amem_of_mem {κ α : Type} [BEq κ] [LawfulBEq κ] :
    ∀ (m : List (κ × α)) (k : κ) (v : α), (k, v) ∈ m → amem m k = true := by
  intro m
  induction m with
  | nil => intro k v h; simp at h
  | cons q rest ih =>
    intro k v h
    rcases List.mem_cons.mp h with h1 | h1
    · have hq : (q.1 == k) = true := by rw [← h1]; simp
      unfold amem alookup
      simp [List.find?_cons, hq]
    · have hrest := ih k v h1
      unfold amem alookup at hrest ⊢
      rw [List.find?_cons]
      by_cases hq : (q.1 == k) = true
      · simp [hq]
      · simp only [hq, cond_false]
        simpa using hrest

theorem alookup_some_mem {κ α : Type} [BEq κ] [LawfulBEq κ]
    (m : List (κ × α)) (k : κ) (v : α) (h : alookup m k = some v) :
    ∃ p, p ∈ m ∧ p.1 = k ∧ p.2 = v := by
  unfold alookup at h
  cases hf : m.find? (fun p => p.1 == k) with
  | none => rw [hf] at h; simp at h
  | some p =>
    rw [hf] at h
    simp at h
    refine ⟨p, List.mem_of_find?_eq_some hf, ?_, h⟩
    have := List.find?_some hf
    simpa using this

theorem mappingPhase1_codomain (cf : FieldsT) :
    ∀ (items : List (String × String)) (m r : MapT),
      (∀ p : String × String, p ∈ m → amem cf p.2 = true) →
      ∀ p : String × String, p ∈ (mappingPhase1 cf items (m, r)).1 → amem cf p.2 = true := by
  intro items
  induction items with
  | nil =>
    intro m r hm p hp
    simp only [mappingPhase1] at hp
    exact hm p hp
  | cons it rest ih =>
    intro m r hm p hp
    obtain ⟨c, f⟩ := it
    by_cases hmem : amem m c = true
    · rw [show mappingPhase1 cf ((c, f) :: rest) (m, r) = mappingPhase1 cf rest (m, r)
          from by simp [mappingPhase1, hmem]] at hp
      exact ih m r hm p hp
    · by_cases hf : amem cf f = true
      · rw [show mappingPhase1 cf ((c, f) :: rest) (m, r)
            = mappingPhase1 cf rest (m ++ [(c, f)], r ++ [(c, "explicit")]) from by
          simp [mappingPhase1, hmem, hf]] at hp
        refine ih _ _ ?_ p hp
        intro q hq
        rcases List.mem_append.mp hq with h1 | h1
        · exact hm q h1
        · simp at h1
          rw [h1]
          exact hf
      · rw [show mappingPhase1 cf ((c, f) :: rest) (m, r) = mappingPhase1 cf rest (m, r)
            from by simp [mappingPhase1, hmem, hf]] at hp
        exact ih m r hm p hp

theorem mappingPhase2_codomain (cf : FieldsT) (excluded : List String) :
    ∀ (cols : List String) (m r : MapT),
      (∀ p : String × String, p ∈ m → amem cf p.2 = true) →
      ∀ p : String × String, p ∈ (mappingPhase2 cf excluded cols (m, r)).1 →
        amem cf p.2 = true := by
  intro cols
  induction cols with
  | nil =>
    intro m r hm p hp
    simp only [mappingPhase2] at hp
    exact hm p hp
  | cons c rest ih =>
    intro m r hm p hp
    by_cases hmem : amem m c = true
    · rw [show mappingPhase2 cf excluded (c :: rest) (m, r) = mappingPhase2 cf excluded rest (m, r)
          from by simp [mappingPhase2, hmem]] at hp
      exact ih m r hm p hp
    · by_cases hcond : amem cf c = true ∧ allowed_field cf excluded c = true
      · rw [show mappingPhase2 cf excluded (c :: rest) (m, r)
            = mappingPhase2 cf excluded rest
                (m ++ [(c, c)], r ++ [(c, "match_field_name")]) from by
          simp [mappingPhase2, hmem, hcond.1, hcond.2]] at hp
        refine ih _ _ ?_ p hp
        intro q hq
        rcases List.mem_append.mp hq with h1 | h1
        · exact hm q h1
        · simp at h1
          rw [h1]
          exact hcond.1
      · rw [show mappingPhase2 cf excluded (c :: rest) (m, r)
            = mappingPhase2 cf excluded rest (m, r) from by
          simp only [mappingPhase2]
          rw [if_neg hmem, if_neg hcond]] at hp
        exact ih m r hm p hp

theorem insertTitleList_values (cf : FieldsT) (name : String)
    (hname : amem cf name = true) :
    ∀ (ts : List String) (t2n : MapT),
      (∀ p : String × String, p ∈ t2n → amem cf p.2 = true) →
      ∀ p : String × String, p ∈ insertTitleList name ts t2n → amem cf p.2 = true := by
  intro ts
  induction ts with
  | nil =>
    intro t2n ht p hp
    simp only [insertTitleList] at hp
    exact ht p hp
  | cons t rest ih =>
    intro t2n ht p hp
    by_cases hmem : amem t2n t = true
    · rw [show insertTitleList name (t :: rest) t2n = insertTitleList name rest t2n
          from by simp [insertTitleList, hmem]] at hp
      exact ih t2n ht p hp
    · rw [show insertTitleList name (t :: rest) t2n
          = insertTitleList name rest (t2n ++ [(t, name)]) from by
        simp [insertTitleList, hmem]] at hp
      refine ih _ ?_ p hp
      intro q hq
      rcases List.mem_append.mp hq with h1 | h1
      · exact ht q h1
      · simp at h1
        rw [h1]
        exact hname

theorem buildTitleToName_values (cf : FieldsT) (excluded : List String) :
    ∀ (sub : FieldsT) (t2n : MapT),
      (∀ q : String × FieldDef, q ∈ sub → amem cf q.1 = true) →
      (∀ p : String × String, p ∈ t2n → amem cf p.2 = true) →
      ∀ p : String × String, p ∈ buildTitleToName cf excluded sub t2n →
        amem cf p.2 = true := by
  intro sub
  induction sub with
  | nil =>
    intro t2n _ ht p hp
    simp only [buildTitleToName] at hp
    exact ht p hp
  | cons nf rest ih =>
    intro t2n hsub ht p hp
    obtain ⟨name, fdef⟩ := nf
    have hname : amem cf name = true := hsub (name, fdef) (by simp)
    have hsub2 : ∀ q : String × FieldDef, q ∈ rest → amem cf q.1 = true := by
      intro q hq
      exact hsub q (List.mem_cons_of_mem _ hq)
    by_cases hall : allowed_field cf excluded name = true
    · rw [show buildTitleToName cf excluded ((name, fdef) :: rest) t2n
          = buildTitleToName cf excluded rest (insertTitleList name (_field_titles fdef) t2n)
          from by simp [buildTitleToName, hall]] at hp
      exact ih _ hsub2 (insertTitleList_values cf name hname (_field_titles fdef) t2n ht) p hp
    · rw [show buildTitleToName cf excluded ((name, fdef) :: rest) t2n
          = buildTitleToName cf excluded rest t2n from by simp [buildTitleToName, hall]] at hp
      exact ih t2n hsub2 ht p hp

theorem mappingPhase3_codomain (cf : FieldsT) (t2n : MapT)
    (ht2n : ∀ p : String × String, p ∈ t2n → amem cf p.2 = true) :
    ∀ (cols : List String) (m r : MapT),
      (∀ p : String × String, p ∈ m → amem cf p.2 = true) →
      ∀ p : String × String, p ∈ (mappingPhase3 t2n cols (m, r)).1 →
        amem cf p.2 = true := by
  intro cols
  induction cols with
  | nil =>
    intro m r hm p hp
    simp only [mappingPhase3] at hp
    exact hm p hp
  | cons c rest ih =>
    intro m r hm p hp
    by_cases hmem : amem m c = true
    · rw [show mappingPhase3 t2n (c :: rest) (m, r) = mappingPhase3 t2n rest (m, r)
          from by simp [mappingPhase3, hmem]] at hp
      exact ih m r hm p hp
    · cases htgt : alookup t2n c with
      | some target =>
        by_cases hne : target ≠ ""
        · rw [show mappingPhase3 t2n (c :: rest) (m, r)
              = mappingPhase3 t2n rest
                  (m ++ [(c, target)], r ++ [(c, "match_field_title")]) from by
            simp only [mappingPhase3]
            rw [if_neg hmem, htgt]
            simp [hne]] at hp
          refine ih _ _ ?_ p hp
          intro q hq
          rcases List.mem_append.mp hq with h1 | h1
          · exact hm q h1
          · simp at h1
            rw [h1]
            obtain ⟨pr, hpr, _, hpr2⟩ := alookup_some_mem t2n c target htgt
            have := ht2n pr hpr
            rw [hpr2] at this
            exact this
        · have hte : target = "" := by
            by_contra hx
            exact hne hx
          rw [show mappingPhase3 t2n (c :: rest) (m, r) = mappingPhase3 t2n rest (m, r) from by
            simp only [mappingPhase3]
            rw [if_neg hmem, htgt]
            simp [hte]] at hp
          exact ih m r hm p hp
      | none =>
        rw [show mappingPhase3 t2n (c :: rest) (m, r) = mappingPhase3 t2n rest (m, r) from by
          simp only [mappingPhase3]
          rw [if_neg hmem, htgt]] at hp
        exact ih m r hm p hp

/-- Every field identifier the mapper can emit names a field of the schema. -/
theorem build_excel_field_mapping_codomain (cols : List String) (cf : FieldsT)
    (em : Option (List (String × String))) (ext : Option (List String)) :
    ∀ p : String × String, p ∈ (build_excel_field_mapping cols cf em ext).1 →
      amem cf p.2 = true := by
  intro p hp
  have hbuild : build_excel_field_mapping cols cf em ext
      = mappingPhase3 (buildTitleToName cf (ext.getD []) cf []) cols
          (mappingPhase2 cf (ext.getD []) cols
            (mappingPhase1 cf (em.getD []) ([], []))) := rfl
  rw [hbuild] at hp
  have h1 := mappingPhase1_codomain cf (em.getD []) [] [] (by intro q hq; simp at hq)
  rcases hst1 : mappingPhase1 cf (em.getD []) (([] : MapT), ([] : MapT)) with ⟨m1, r1⟩
  rw [hst1] at hp h1
  have h2 := mappingPhase2_codomain cf (ext.getD []) cols m1 r1 h1
  rcases hst2 : mappingPhase2 cf (ext.getD []) cols (m1, r1) with ⟨m2, r2⟩
  rw [hst2] at hp h2
  have ht2n := buildTitleToName_values cf (ext.getD []) cf []
      (by intro q hq
          have : (q.1, q.2) ∈ cf := by simpa using hq
          exact amem_of_mem cf q.1 q.2 this)
      (by intro q hq; simp at hq)
  exact mappingPhase3_codomain cf _ ht2n cols m2 r2 h2 p hp

theorem buildRowValues_keys (env : ImportEnv) (rbt cm : Bool) (cf : FieldsT) (row : Row) :
    ∀ (mapping : List (String × String)) (values : Row) (cache : Cache)
      (vals : Row) (cache2 : Cache),
      (∀ p : String × String, p ∈ mapping → amem cf p.2 = true) →
      (∀ p : String × Val, p ∈ values → schemaOrFkKey cf p.1) →
      (buildRowValues env rbt cm cf row mapping values cache).1
        = Except.ok (vals, cache2) →
      ∀ p : String × Val, p ∈ vals → schemaOrFkKey cf p.1 := by
  intro mapping
  induction mapping with
  | nil =>
    intro values cache vals cache2 _ hv hok p hp
    simp only [buildRowValues] at hok
    obtain ⟨h1, h2⟩ := by simpa using hok
    subst h1
    exact hv p hp
  | cons itm rest ih =>
    intro values cache vals cache2 hmap hv hok p hp
    obtain ⟨excel_col, field_name⟩ := itm
    have hmaprest : ∀ p : String × String, p ∈ rest → amem cf p.2 = true := by
      intro q hq
      exact hmap q (List.mem_cons_of_mem _ hq)
    have hfname : amem cf field_name = true := hmap (excel_col, field_name) (by simp)
    simp only [buildRowValues] at hok
    split at hok
    · rename_i fd hfd
      split at hok
      · rename_i hbt
        split at hok
        · exact ih values cache vals cache2 hmaprest hv hok p hp
        · split at hok
          · simp at hok
          · rename_i fk_value cache' tr1 hres
            split at hok
            · rename_i fk_name hfk
              split at hok
              · simp only at hok
                exact ih values cache' vals cache2 hmaprest hv hok p hp
              · simp only at hok
                refine ih (dictSet values fk_name fk_value) cache' vals cache2 hmaprest ?_ hok p hp
                intro q hq
                rcases dictSet_mem values fk_name fk_value q hq with h1 | h1
                · exact hv q h1
                · rw [h1]
                  right
                  obtain ⟨pr, hpr, hpr1, hpr2⟩ :=
                    alookup_some_mem cf field_name fd hfd
                  rw [List.any_eq_true]
                  refine ⟨pr, hpr, ?_⟩
                  rw [hpr2, hbt.2, hfk]
                  simp
            · simp only at hok
              exact ih values cache' vals cache2 hmaprest hv hok p hp
      · split at hok
        · exact ih values cache vals cache2 hmaprest hv hok p hp
        · refine ih (dictSet values field_name _) cache vals cache2 hmaprest ?_ hok p hp
          intro q hq
          rcases dictSet_mem values field_name _ q hq with h1 | h1
          · exact hv q h1
          · rw [h1]
            exact Or.inl hfname
    · rename_i hfd
      unfold amem at hfname
      rw [hfd] at hfname
      simp at hfname

/-- C5 (amended): every key of the Write Values of a row built through a mapping
derived from the schema is either a field name of that schema or the declared
foreign key of a belongsTo field of that schema. -/
theorem write_values_keys_amended
    (cols : List String) (cf : FieldsT) (em : Option (List (String × String)))
    (ext : Option (List String)) (env : ImportEnv) (rbt cm : Bool)
    (row : Row) (cache : Cache) (vals : Row) (cache2 : Cache) (k : String) (v : Val)
    (hok : (buildRowValues env rbt cm cf row
        (build_excel_field_mapping cols cf em ext).1 [] cache).1
      = Except.ok (vals, cache2))
    (hmem : (k, v) ∈ vals) :
    schemaOrFkKey cf k := by
  exact buildRowValues_keys env rbt cm cf row
    (build_excel_field_mapping cols cf em ext).1 [] cache vals cache2
    (build_excel_field_mapping_codomain cols cf em ext)
    (by intro p hp; simp at hp) hok (k, v) hmem

/-- C5 counterexample: the Write Values of a resolved belongsTo column use the
key "customer_id", which is not a field name present in the schema — the claim
that all keys (including the belongsTo one) are schema field names is false. -/
theorem write_values_key_counterexample :
    (build_excel_field_mapping ["customer"] cfC5 none none).1 = [("customer", "customer")]
    ∧ (buildRowValues envC5 true false cfC5 [("customer", Val.vstr "Acme")]
        (build_excel_field_mapping ["customer"] cfC5 none none).1 [] []).1
      = Except.ok ([("customer_id", Val.vint 5)],
          [(("t_customers", "name", "Acme"), Val.vint 5)])
    ∧ amem cfC5 "customer_id" = false := by
  refine ⟨rfl, rfl, rfl⟩

theorem write_values_keys_amended_witness :
    ((buildRowValues envC5 true false cfC5 [("customer", Val.vstr "Acme")]
        (build_excel_field_mapping ["customer"] cfC5 none none).1 [] []).1
      = Except.ok ([("customer_id", Val.vint 5)],
          [(("t_customers", "name", "Acme"), Val.vint 5)]))
    ∧ ("customer_id", Val.vint 5) ∈ [("customer_id", Val.vint 5)]
    ∧ schemaOrFkKey cfC5 "customer_id" :=
  ⟨rfl, by decide,
    write_values_keys_amended ["customer"] cfC5 none none envC5 true false
      [("customer", Val.vstr "Acme")] [] [("customer_id", Val.vint 5)]
      [(("t_customers", "name", "Acme"), Val.vint 5)] "customer_id" (Val.vint 5)
      rfl (by decide)⟩

theorem resolve_belongs_to_fk_trace (env : ImportEnv) (cm : Bool) (cache : Cache)
    (fd : FieldDef) (dv : Val) :
    ∀ call : CreateCall, call ∈ (resolve_belongs_to_fk env cm cache fd dv).2 →
      call.1 = CallTag.fkCreate := by
  intro call h
  unfold resolve_belongs_to_fk at h
  cases htar : fd.target with
  | none =>
    rw [htar] at h
    simp at h
  | some target =>
    rw [htar] at h
    dsimp only at h
    by_cases ht : target = ""
    · rw [if_pos ht] at h
      simp at h
    · rw [if_neg ht] at h
      cases hfk : fd.foreignKey with
      | none =>
        rw [hfk] at h
        simp at h
      | some fk =>
        rw [hfk] at h
        dsimp only at h
        by_cases hfke : fk = ""
        · rw [if_pos hfke] at h
          simp at h
        · rw [if_neg hfke] at h
          by_cases hbl : stripStr (pyStr dv) = ""
          · rw [if_pos hbl] at h
            simp at h
          · rw [if_neg hbl] at h
            cases htf : env.titleFieldAttr target with
            | error e =>
              rw [htf] at h
              simp at h
            | ok tfv =>
              rw [htf] at h
              dsimp only at h
              cases hck : alookup cache (target, effTitleField tfv, stripStr (pyStr dv)) with
              | some pk =>
                rw [hck] at h
                simp at h
              | none =>
                rw [hck] at h
                cases hlr : env.listRows target with
                | error e =>
                  rw [hlr] at h
                  simp at h
                | ok rows =>
                  rw [hlr] at h
                  dsimp only at h
                  cases hfind : rows.find? (fun r =>
                      stripStr (pyStr ((alookup r (effTitleField tfv)).getD (Val.vstr "")))
                        == stripStr (pyStr dv)) with
                  | some r =>
                    rw [hfind] at h
                    simp at h
                  | none =>
                    rw [hfind] at h
                    dsimp only at h
                    by_cases hcm : cm = true
                    · rw [if_pos hcm] at h
                      cases hcr : env.create target
                          [(effTitleField tfv, Val.vstr (stripStr (pyStr dv)))] with
                      | error e =>
                        rw [hcr] at h
                        simp at h
                        subst h
                        rfl
                      | ok created =>
                        rw [hcr] at h
                        simp at h
                        subst h
                        rfl
                    · rw [if_neg hcm] at h
                      simp at h

theorem buildRowValues_trace_fk (env : ImportEnv) (rbt cm : Bool)
    (fields : FieldsT) (row : Row) :
    ∀ (mapping : List (String × String)) (values : Row) (cache : Cache),
      ∀ call : CreateCall,
        call ∈ (buildRowValues env rbt cm fields row mapping values cache).2 →
        call.1 = CallTag.fkCreate := by
  intro mapping
  induction mapping with
  | nil =>
    intro values cache call h
    simp [buildRowValues] at h
  | cons itm rest ih =>
    intro values cache call h
    obtain ⟨excel_col, field_name⟩ := itm
    simp only [buildRowValues] at h
    split at h
    · rename_i fd hfd
      split at h
      · split at h
        · exact ih values cache call h
        · split at h
          · rename_i exc tr1 hres
            have := resolve_belongs_to_fk_trace env cm cache fd
              (_to_python_scalar ((alookup row excel_col).getD Val.vnone)) call
            rw [hres] at this
            exact this h
          · rename_i fk_value cache' tr1 hres
            have htr1 := resolve_belongs_to_fk_trace env cm cache fd
              (_to_python_scalar ((alookup row excel_col).getD Val.vnone)) call
            rw [hres] at htr1
            split at h
            · split at h
              · simp only [List.mem_append] at h
                rcases h with h | h
                · exact htr1 h
                · exact ih values cache' call h
              · simp only [List.mem_append] at h
                rcases h with h | h
                · exact htr1 h
                · exact ih _ cache' call h
            · simp only [List.mem_append] at h
              rcases h with h | h
              · exact htr1 h
              · exact ih values cache' call h
      · split at h
        · exact ih values cache call h
        · exact ih _ cache call h
    · split at h
      · exact ih values cache call h
      · exact ih _ cache call h

theorem importLoop_counts (env : ImportEnv) (collection : String)
    (rbt cm dr : Bool) (fields : FieldsT) (mapping : MapT) :
    ∀ (rows : List Row) (i s f : Nat) (errs : List RowError) (prev : List Row)
      (cache : Cache) (s2 f2 : Nat) (e2 : List RowError) (p2 : List Row) (c2 : Cache),
      (importLoop env collection rbt cm dr fields mapping rows i s f errs prev cache).1
        = Except.ok (s2, f2, e2, p2, c2) →
      s2 + f2 ≤ s + f + rows.length := by
  intro rows
  induction rows with
  | nil =>
    intro i s f errs prev cache s2 f2 e2 p2 c2 h
    simp only [importLoop] at h
    obtain ⟨hs, hf, _, _, _⟩ := by simpa using h
    omega
  | cons row rest ih =>
    intro i s f errs prev cache s2 f2 e2 p2 c2 h
    simp only [importLoop] at h
    split at h
    · simp at h
    · rename_i values cache' tr hbv
      split at h
      · simp only at h
        have := ih (i + 1) s f errs prev cache' s2 f2 e2 p2 c2 h
        simp only [List.length_cons]
        omega
      · split at h
        · simp only at h
          have := ih (i + 1) (s + 1) f errs (prev ++ [values]) cache' s2 f2 e2 p2 c2 h
          simp only [List.length_cons]
          omega
        · split at h
          · rename_i exc hcr
            simp only at h
            have := ih (i + 1) s (f + 1) (errs ++ [mkRowError i exc values]) prev cache'
              s2 f2 e2 p2 c2 h
            simp only [List.length_cons]
            omega
          · rename_i resp hcr
            split at h
            · simp only at h
              have := ih (i + 1) s (f + 1)
                (errs ++ [{ row := i + 1, error := pyStr resp.errors,
                            statusCode := none, values := values }]) prev cache'
                s2 f2 e2 p2 c2 h
              simp only [List.length_cons]
              omega
            · split at h
              · rename_i d hd
                split at h
                · simp only at h
                  have := ih (i + 1) (s + 1) f errs prev cache' s2 f2 e2 p2 c2 h
                  simp only [List.length_cons]
                  omega
                · simp only at h
                  have := ih (i + 1) s (f + 1)
                    (errs ++ [{ row := i + 1, error := "create 返回异常：" ++ respRepr resp,
                                statusCode := none, values := values }]) prev cache'
                    s2 f2 e2 p2 c2 h
                  simp only [List.length_cons]
                  omega
              · simp only at h
                have := ih (i + 1) s (f + 1)
                  (errs ++ [{ row := i + 1, error := "create 返回异常：" ++ respRepr resp,
                              statusCode := none, values := values }]) prev cache'
                  s2 f2 e2 p2 c2 h
                simp only [List.length_cons]
                omega

theorem importLoop_dry_run (env : ImportEnv) (collection : String)
    (rbt cm : Bool) (fields : FieldsT) (mapping : MapT) :
    ∀ (rows : List Row) (i s f : Nat) (errs : List RowError) (prev : List Row)
      (cache : Cache) (s2 f2 : Nat) (e2 : List RowError) (p2 : List Row) (c2 : Cache)
      (tr : List CreateCall),
      importLoop env collection rbt cm true fields mapping rows i s f errs prev cache
        = (Except.ok (s2, f2, e2, p2, c2), tr) →
      f2 = f ∧ e2 = errs ∧ s2 + prev.length = s + p2.length
      ∧ (∀ p : Row, p ∈ p2 → p ∈ prev ∨ p ≠ [])
      ∧ (∀ call : CreateCall, call ∈ tr → call.1 = CallTag.fkCreate) := by
  intro rows
  induction rows with
  | nil =>
    intro i s f errs prev cache s2 f2 e2 p2 c2 tr h
    simp only [importLoop] at h
    obtain ⟨h1, h2⟩ := Prod.mk.injEq .. |>.mp h
    obtain ⟨hs, hf, he, hp, _⟩ := by simpa using h1
    subst hs hf he hp
    refine ⟨rfl, rfl, rfl, fun p hp => Or.inl hp, ?_⟩
    intro call hc
    rw [← h2] at hc
    simp at hc
  | cons row rest ih =>
    intro i s f errs prev cache s2 f2 e2 p2 c2 tr h
    simp only [importLoop] at h
    split at h
    · simp at h
    · rename_i values cache' trv hbv
      have htrv : ∀ call : CreateCall, call ∈ trv → call.1 = CallTag.fkCreate := by
        intro call hc
        have := buildRowValues_trace_fk env rbt cm fields row mapping [] cache call
        rw [hbv] at this
        exact this hc
      split at h
      · obtain ⟨h1, h2⟩ := Prod.mk.injEq .. |>.mp h
        have hfull : importLoop env collection rbt cm true fields mapping rest (i + 1)
            s f errs prev cache'
            = (Except.ok (s2, f2, e2, p2, c2),
               (importLoop env collection rbt cm true fields mapping rest (i + 1)
                 s f errs prev cache').2) := by
          rw [← h1]
        obtain ⟨c1, c2x, c3, c4, c5⟩ := ih (i + 1) s f errs prev cache' s2 f2 e2 p2 c2 _ hfull
        refine ⟨c1, c2x, c3, c4, ?_⟩
        intro call hc
        rw [← h2] at hc
        rcases List.mem_append.mp hc with hcl | hcl
        · exact htrv call hcl
        · exact c5 call hcl
      · split at h
        · obtain ⟨h1, h2⟩ := Prod.mk.injEq .. |>.mp h
          have hfull : importLoop env collection rbt cm true fields mapping rest (i + 1)
              (s + 1) f errs (prev ++ [values]) cache'
              = (Except.ok (s2, f2, e2, p2, c2),
                 (importLoop env collection rbt cm true fields mapping rest (i + 1)
                   (s + 1) f errs (prev ++ [values]) cache').2) := by
            rw [← h1]
          obtain ⟨c1, c2x, c3, c4, c5⟩ := ih (i + 1) (s + 1) f errs (prev ++ [values])
            cache' s2 f2 e2 p2 c2 _ hfull
          rename_i hne _
          refine ⟨c1, c2x, by simp at c3; omega, ?_, ?_⟩
          · intro p hp
            rcases c4 p hp with hd | hd
            · rcases List.mem_append.mp hd with hd2 | hd2
              · exact Or.inl hd2
              · right
                simp at hd2
                rw [hd2]
                intro hcon
                rw [hcon] at hne
                simp at hne
            · exact Or.inr hd
          · intro call hc
            rw [← h2] at hc
            rcases List.mem_append.mp hc with hcl | hcl
            · exact htrv call hcl
            · exact c5 call hcl
        · rename_i hdr
          exact absurd trivial hdr

theorem take_total_length (rows : List Row) (limit : Int) :
    (rows.take (if limit ≤ 0 then rows.length else min rows.length limit.toNat)).length
      = (if limit ≤ 0 then rows.length else min rows.length limit.toNat) := by
  rw [List.length_take]
  by_cases hl : limit ≤ 0
  · simp [hl]
  · rw [if_neg hl]
    omega

/-- C10: every Import Result an import run returns satisfies
success + failed ≤ total (the counts are naturals, hence non-negative), and
the inequality can be strict: a row whose Write Values come out empty is
counted in total but contributes to neither count, as the concrete two-row
run with one blank row shows. -/
theorem import_result_count_invariant
    (env : ImportEnv) (collection : String) (rows : List Row) (columns : List String)
    (limit : Int) (dr : Bool) (em : Option (List (String × String))) (rbt cm : Bool)
    (res : ImportResult) (tr : List CreateCall)
    (h : import_excel_to_collection env collection rows columns limit dr em rbt cm
      = (Except.ok res, tr)) :
    res.success + res.failed ≤ res.total
    ∧ (import_excel_to_collection envC10 "orders" rowsC10 ["name"] 0 false none true false).1
        = Except.ok resC10
    ∧ resC10.success + resC10.failed < resC10.total := by
  refine ⟨?_, rfl, by decide⟩
  unfold import_excel_to_collection at h
  split at h
  · simp at h
  · split at h
    · simp at h
    · rename_i fields hfields
      split at h
      · dsimp only at h
        rcases hloopE : importLoop env collection rbt cm dr fields
            (build_excel_field_mapping columns fields em none).1
            (rows.take (if limit ≤ 0 then rows.length else min rows.length limit.toNat))
            0 0 0 [] [] [] with ⟨res1, tr1⟩
        rw [hloopE] at h
        cases res1 with
        | error e => simp at h
        | ok val =>
          obtain ⟨s1, f1, e1, p1, c1⟩ := val
          dsimp only at h
          obtain ⟨h1, h2⟩ := Prod.mk.injEq .. |>.mp h
          obtain rfl := Except.ok.inj h1
          have hcount := importLoop_counts env collection rbt cm dr fields
            _ _ _ _ _ _ _ _ _ _ _ _ _ (congrArg Prod.fst hloopE)
          have hlen := take_total_length rows limit
          dsimp only
          omega
      · dsimp only at h
        rcases hloopE : importLoop env collection rbt cm dr fields
            (build_excel_field_mapping columns fields em (some ["belongsTo", "belongsToMany", "hasMany", "hasOne"])).1
            (rows.take (if limit ≤ 0 then rows.length else min rows.length limit.toNat))
            0 0 0 [] [] [] with ⟨res1, tr1⟩
        rw [hloopE] at h
        cases res1 with
        | error e => simp at h
        | ok val =>
          obtain ⟨s1, f1, e1, p1, c1⟩ := val
          dsimp only at h
          obtain ⟨h1, h2⟩ := Prod.mk.injEq .. |>.mp h
          obtain rfl := Except.ok.inj h1
          have hcount := importLoop_counts env collection rbt cm dr fields
            _ _ _ _ _ _ _ _ _ _ _ _ _ (congrArg Prod.fst hloopE)
          have hlen := take_total_length rows limit
          dsimp only
          omega

theorem import_result_count_invariant_witness :
    (import_excel_to_collection envC10 "orders" rowsC10 ["name"] 0 false none true false
      = (Except.ok resC10, [(CallTag.rowCreate, "orders", [("name", Val.vstr "a")])]))
    ∧ (resC10.success + resC10.failed ≤ resC10.total
       ∧ (import_excel_to_collection envC10 "orders" rowsC10 ["name"] 0 false none true false).1
          = Except.ok resC10
       ∧ resC10.success + resC10.failed < resC10.total) :=
  ⟨rfl, import_result_count_invariant envC10 "orders" rowsC10 ["name"] 0 false none true false
      resC10 [(CallTag.rowCreate, "orders", [("name", Val.vstr "a")])] rfl⟩

/-- C9 (amended): a preview (dry-run) import run that completes records no row
failures, reports success equal to the number of recorded preview rows, every
preview row non-empty, and issues no orchestrator row-write — every create
call in its trace comes from the foreign-key resolver (which can still write
missing belongsTo targets when their creation is enabled). -/
theorem import_preview_no_row_writes
    (env : ImportEnv) (collection : String) (rows : List Row) (columns : List String)
    (limit : Int) (em : Option (List (String × String))) (rbt cm : Bool)
    (res : ImportResult) (tr : List CreateCall)
    (h : import_excel_to_collection env collection rows columns limit true em rbt cm
      = (Except.ok res, tr)) :
    res.failed = 0
    ∧ res.errors = []
    ∧ res.preview = some (res.preview.getD [])
    ∧ res.success = (res.preview.getD []).length
    ∧ (res.preview.getD []).all (fun p => ! p.isEmpty) = true
    ∧ tr.all (fun call => call.1 == CallTag.fkCreate) = true
    ∧ res.success ≤ res.total := by
  unfold import_excel_to_collection at h
  split at h
  · simp at h
  · split at h
    · simp at h
    · rename_i fields hfields
      split at h
      · dsimp only at h
        rcases hloopE : importLoop env collection rbt cm true fields
            (build_excel_field_mapping columns fields em none).1
            (rows.take (if limit ≤ 0 then rows.length else min rows.length limit.toNat))
            0 0 0 [] [] [] with ⟨res1, tr1⟩
        rw [hloopE] at h
        cases res1 with
        | error e => simp at h
        | ok val =>
          obtain ⟨s1, f1, e1, p1, c1⟩ := val
          dsimp only at h
          obtain ⟨h1, h2⟩ := Prod.mk.injEq .. |>.mp h
          obtain rfl := Except.ok.inj h1
          subst h2
          obtain ⟨c1h, c2h, c3h, c4h, c5h⟩ := importLoop_dry_run env collection rbt cm fields
            _ _ _ _ _ _ _ _ s1 f1 e1 p1 c1 tr1 hloopE
          have hcount := importLoop_counts env collection rbt cm true fields
            _ _ _ _ _ _ _ _ _ _ _ _ _ (congrArg Prod.fst hloopE)
          have hlen := take_total_length rows limit
          subst c1h
          subst c2h
          refine ⟨rfl, rfl, rfl, ?_, ?_, ?_, ?_⟩
          · dsimp only
            simp at c3h ⊢
            omega
          · dsimp only
            rw [List.all_eq_true]
            intro p hp
            have := (c4h p hp).resolve_left (by simp)
            simpa using this
          · rw [List.all_eq_true]
            intro call hc
            have := c5h call hc
            simpa using this
          · dsimp only
            omega
      · dsimp only at h
        rcases hloopE : importLoop env collection rbt cm true fields
            (build_excel_field_mapping columns fields em (some ["belongsTo", "belongsToMany", "hasMany", "hasOne"])).1
            (rows.take (if limit ≤ 0 then rows.length else min rows.length limit.toNat))
            0 0 0 [] [] [] with ⟨res1, tr1⟩
        rw [hloopE] at h
        cases res1 with
        | error e => simp at h
        | ok val =>
          obtain ⟨s1, f1, e1, p1, c1⟩ := val
          dsimp only at h
          obtain ⟨h1, h2⟩ := Prod.mk.injEq .. |>.mp h
          obtain rfl := Except.ok.inj h1
          subst h2
          obtain ⟨c1h, c2h, c3h, c4h, c5h⟩ := importLoop_dry_run env collection rbt cm fields
            _ _ _ _ _ _ _ _ s1 f1 e1 p1 c1 tr1 hloopE
          have hcount := importLoop_counts env collection rbt cm true fields
            _ _ _ _ _ _ _ _ _ _ _ _ _ (congrArg Prod.fst hloopE)
          have hlen := take_total_length rows limit
          subst c1h
          subst c2h
          refine ⟨rfl, rfl, rfl, ?_, ?_, ?_, ?_⟩
          · dsimp only
            simp at c3h ⊢
            omega
          · dsimp only
            rw [List.all_eq_true]
            intro p hp
            have := (c4h p hp).resolve_left (by simp)
            simpa using this
          · rw [List.all_eq_true]
            intro call hc
            have := c5h call hc
            simpa using this
          · dsimp only
            omega

/-- C9 counterexample: in preview (dry-run) mode with create-missing enabled,
the run still issues a write to the remote store — the resolver creates the
missing belongsTo target "Acme" — so the claim that no write call is issued in
preview mode is false as stated. -/
theorem import_preview_write_counterexample :
    import_excel_to_collection envC9 "orders" rowsC9 ["customer"] 0 true none true true
      = (Except.ok resC9, trC9)
    ∧ trC9 ≠ [] := by
  refine ⟨rfl, by decide⟩

theorem import_preview_no_row_writes_witness :
    (import_excel_to_collection envC9 "orders" rowsC9 ["customer"] 0 true none true true
      = (Except.ok resC9, trC9))
    ∧ (resC9.failed = 0
       ∧ resC9.errors = []
       ∧ resC9.preview = some (resC9.preview.getD [])
       ∧ resC9.success = (resC9.preview.getD []).length
       ∧ (resC9.preview.getD []).all (fun p => ! p.isEmpty) = true
       ∧ trC9.all (fun call => call.1 == CallTag.fkCreate) = true
       ∧ resC9.success ≤ resC9.total) :=
  ⟨rfl, import_preview_no_row_writes envC9 "orders" rowsC9 ["customer"] 0 none true true
      resC9 trC9 rfl⟩

end NocoBase
